import Mathlib

/-!
Verification of the `zfs-auto-snapshot` snapshot-retention engine
(repository `kelleyk/zfstools`, Go) via a shallow embedding.

The embedding translates, from the Go sources:
  * the snapshot-naming codec (`snapMetadata.Path`, `parseSnapName`,
    the `snapNameRegexp` regular expression built over
    `gokk.RFC3339Pattern`, and the behaviour of Go's
    `time.Time.Format`/`time.Parse` with the `time.RFC3339` layout);
  * the retention evaluator and enforcement loop
    (`Tool.getSnapshots`, `Tool.removeSnapshots`, `Tool.manageSnapshots`,
    the enforcement section of `Tool.Main`);
  * dataset exclusion (`Tool.datasetExcluded`).

Strings are modelled as `List Char`; Go's `time.Time` is modelled by the
broken-down wall-clock fields plus the zone offset (`GoTime`), which is
exactly the view that `Format` renders and `Parse` reconstructs; the
instant denoted by a `GoTime` (used by `time.Time.After` / `Sub`) is
computed by `instKey` with the standard civil-calendar conversion.
External collaborator calls (`zfs.DatasetSnapshot`, `Dataset.Destroy`)
are modelled as always succeeding; the claims under study concern the
engine's own decision logic, not collaborator failures.
-/

/-- Strings of the Go program, modelled as lists of characters. -/
abbrev Str : Type := List Char

/-- Conversion from Lean string literals. -/
def str (s : String) : Str := s.toList

deriving instance DecidableEq for Except

/-! ### Decimal digits (Go `strconv`-style rendering, `time` parsing) -/

/-- Is `c` an ASCII decimal digit (Go `isDigit`)? -/
def isDig (c : Char) : Bool := 48 ≤ c.toNat && c.toNat ≤ 57

/-- Numeric value of a digit character (Go `c - '0'`). -/
def charVal (c : Char) : Nat := c.toNat - 48

/-- Decimal digit rendering, structurally recursive on a fuel bound
(any fuel above the digit count yields the digit string). -/
def natDigitsAux : Nat → Nat → List Char
  | 0, _ => []
  | fuel + 1, n =>
      if n < 10 then [Nat.digitChar n]
      else natDigitsAux fuel (n / 10) ++ [Nat.digitChar (n % 10)]

/-- The decimal digit string of `n` (Go `strconv`/`appendInt` digits). -/
def natDigits (n : Nat) : List Char := natDigitsAux (n + 1) n

/-- Left-pad with `'0'` to width `w` (Go `appendInt` zero padding). -/
def leftPad (w : Nat) (cs : List Char) : List Char :=
  List.replicate (w - cs.length) '0' ++ cs

/-- Go's `appendInt(b, n, w)`: decimal rendering of `n`, zero-padded to
width `w` (longer numbers are printed in full). -/
def goAppendInt (n w : Nat) : List Char := leftPad w (natDigits n)

/-- Fold a digit string onto an accumulator (decimal value). -/
def dvFrom (a : Nat) : List Char → Nat
  | [] => a
  | c :: cs => dvFrom (10 * a + charVal c) cs

/-- Read exactly `w` digit characters, returning their value and the
rest of the input (Go `getnum` with a fixed width). -/
def readDigitsAcc (a : Nat) : Nat → List Char → Option (Nat × List Char)
  | 0, cs => some (a, cs)
  | _ + 1, [] => none
  | w + 1, c :: cs =>
      if isDig c then readDigitsAcc (10 * a + charVal c) w cs else none

/-- Expect the literal character `c` (Go layout literal matching). -/
def lit (c : Char) : List Char → Option (List Char)
  | [] => none
  | x :: xs => if x = c then some xs else none

/-! ### Go `time.Time`, `Format(time.RFC3339)` and `Parse(time.RFC3339, ·)` -/

/-- The broken-down view of a Go `time.Time`: the wall-clock calendar
fields together with the zone offset in minutes.  `Format` renders
exactly these fields and `Parse` reconstructs them, so name-level
round-trip statements are statements about this record. -/
structure GoTime where
  year : Nat
  month : Nat
  day : Nat
  hour : Nat
  minute : Nat
  second : Nat
  nsec : Nat
  offMin : Int
deriving DecidableEq

/-- Days from 1970-01-01 to the civil date `(y, m, d)` (the standard
civil-calendar conversion used by `time.Time`'s absolute time). -/
def daysFromCivil (y m d : Nat) : Int :=
  let yy : Int := (y : Int) - (if m ≤ 2 then 1 else 0)
  let era : Int := Int.fdiv yy 400
  let yoe : Int := yy - era * 400
  let mp : Int := Int.emod ((m : Int) + 9) 12
  let doy : Int := Int.fdiv (153 * mp + 2) 5 + (d : Int) - 1
  let doe : Int := yoe * 365 + Int.fdiv yoe 4 - Int.fdiv yoe 100 + doy
  era * 146097 + doe - 719468

/-- The instant denoted by a `GoTime`, in nanoseconds since the Unix
epoch.  `time.Time.After` and `time.Time.Sub` compare/subtract these. -/
def instKey (t : GoTime) : Int :=
  (daysFromCivil t.year t.month t.day * 86400
      + ((t.hour * 3600 + t.minute * 60 + t.second : Nat) : Int)
      - t.offMin * 60) * 1000000000
    + (t.nsec : Int)

/-- `now.Sub(ts)` as a `time.Duration` in nanoseconds. -/
def goSub (now ts : GoTime) : Int := instKey now - instKey ts

/-- `a.After(b)`. -/
def goAfter (a b : GoTime) : Prop := instKey b < instKey a

instance (a b : GoTime) : Decidable (goAfter a b) := by
  unfold goAfter; infer_instance

/-- The date-and-time part of the `time.RFC3339` rendering
(`2006-01-02T15:04:05`). -/
def dtPart (t : GoTime) : List Char :=
  goAppendInt t.year 4 ++ '-' :: goAppendInt t.month 2 ++ '-' :: goAppendInt t.day 2
    ++ 'T' :: goAppendInt t.hour 2 ++ ':' :: goAppendInt t.minute 2
    ++ ':' :: goAppendInt t.second 2

/-- The zone part of the `time.RFC3339` rendering (`Z07:00`): `Z` for
offset zero, otherwise a signed `hh:mm`. -/
def zonePart (t : GoTime) : List Char :=
  if t.offMin = 0 then ['Z']
  else
    (if t.offMin < 0 then '-' else '+')
      :: goAppendInt (t.offMin.natAbs / 60) 2 ++ ':' :: goAppendInt (t.offMin.natAbs % 60) 2

/-- Go `t.Format(time.RFC3339)`.  The layout carries no fractional
second, so `nsec` is never rendered. -/
def goFormatRFC3339 (t : GoTime) : List Char := dtPart t ++ zonePart t

/-- Outcome of Go `Parse`'s optional fractional-second scan. -/
inductive FracRes where
  | nofrac
  | ok (ns : Nat)
  | rangeErr
deriving DecidableEq

/-- Go `Parse`'s optional fractional second after the seconds field:
a `'.'` or `','` followed by at least one digit consumes all following
digits; the value must be below `1e9`; the digits are scaled to
nanoseconds (`parseNanoseconds`). -/
def scanFrac : List Char → FracRes × List Char
  | c1 :: c2 :: rest =>
      if (c1 = '.' ∨ c1 = ',') ∧ isDig c2 then
        let ds := (c2 :: rest).takeWhile isDig
        let rest' := (c2 :: rest).dropWhile isDig
        let v := dvFrom 0 ds
        if v ≥ 1000000000 then (FracRes.rangeErr, rest')
        else (FracRes.ok (v * 10 ^ (9 - ds.length)), rest')
      else (FracRes.nofrac, c1 :: c2 :: rest)
  | cs => (FracRes.nofrac, cs)

/-- Go `Parse` of the `Z07:00` layout chunk: a literal (upper-case)
`'Z'` means offset zero; otherwise a sign and `hh:mm` digits. -/
def parseZone : List Char → Option (Int × List Char)
  | [] => none
  | c :: rest =>
      if c = 'Z' then some (0, rest)
      else if c = '+' ∨ c = '-' then
        match readDigitsAcc 0 2 rest with
        | none => none
        | some (hh, cs1) =>
          match lit ':' cs1 with
          | none => none
          | some cs2 =>
            match readDigitsAcc 0 2 cs2 with
            | none => none
            | some (mm, cs3) =>
                some ((if c = '-' then -((hh * 60 + mm : Nat) : Int)
                       else ((hh * 60 + mm : Nat) : Int)), cs3)
      else none

/-- Go `daysIn(m, year)`. -/
def goDaysIn (m y : Nat) : Nat :=
  if m = 2 ∧ (y % 4 = 0 ∧ (y % 100 ≠ 0 ∨ y % 400 = 0)) then 29
  else [31, 28, 31, 30, 31, 30, 31, 31, 30, 31, 30, 31].getD (m - 1) 0

/-- Go `time.Parse(time.RFC3339, ·)`: the fixed layout
`2006-01-02T15:04:05Z07:00`, with Go's implicit optional fractional
second, the mandatory zone designator, the trailing-text check, and the
field range checks.  `none` models a returned `*ParseError`.
`parseDT` is the date-and-time prefix of the layout. -/
def parseDT (cs0 : List Char) :
    Option (Nat × Nat × Nat × Nat × Nat × Nat × List Char) := do
  let (y, cs) ← readDigitsAcc 0 4 cs0
  let cs ← lit '-' cs
  let (mo, cs) ← readDigitsAcc 0 2 cs
  let cs ← lit '-' cs
  let (d, cs) ← readDigitsAcc 0 2 cs
  let cs ← lit 'T' cs
  let (h, cs) ← readDigitsAcc 0 2 cs
  let cs ← lit ':' cs
  let (mi, cs) ← readDigitsAcc 0 2 cs
  let cs ← lit ':' cs
  let (s, cs) ← readDigitsAcc 0 2 cs
  pure (y, mo, d, h, mi, s, cs)

/-- Go `time.Parse(time.RFC3339, ·)`, continued: fraction, zone,
trailing-text check and range checks. -/
def goParseRFC3339 (cs0 : List Char) : Option GoTime := do
  let (y, mo, d, h, mi, s, cs) ← parseDT cs0
  let (ns, cs) ←
    (match scanFrac cs with
     | (FracRes.rangeErr, _) => none
     | (FracRes.nofrac, r) => some (0, r)
     | (FracRes.ok n, r) => some (n, r))
  let (off, cs) ← parseZone cs
  if cs.isEmpty ∧ 1 ≤ mo ∧ mo ≤ 12 ∧ 1 ≤ d ∧ d ≤ goDaysIn mo y
      ∧ h ≤ 23 ∧ mi ≤ 59 ∧ s ≤ 59 then
    pure ⟨y, mo, d, h, mi, s, ns, off⟩
  else none

/-! ### The snapshot-name regular expression

`snapNameRegexp = (?i)^(.*)@(.+)_([^_]+)_(<RFC3339Pattern>)$` with
`RFC3339Pattern = \d4-\d2-\d2T\d2:\d2:\d2(\.\d+)?(Z|[+-]\d2:\d2)?`.
`FindStringSubmatch` is embedded by a backtracking matcher with the
regular leftmost-greedy capture semantics: the greedy `(.*)`/`(.+)`
try the rightmost candidate separator first. -/

/-- All ways to split `l` as `before ++ c :: after`, leftmost first. -/
def splitsAtL (c : Char) : List Char → List (List Char × List Char)
  | [] => []
  | x :: xs =>
      (if x = c then [(([] : List Char), xs)] else [])
        ++ (splitsAtL c xs).map (fun p => (x :: p.1, p.2))

/-- Split at the first occurrence of `c`. -/
def splitFirstAt (c : Char) : List Char → Option (List Char × List Char)
  | [] => none
  | x :: xs =>
      if x = c then some ([], xs)
      else (splitFirstAt c xs).map (fun p => (x :: p.1, p.2))

/-- First `some` produced by `f` along the list. -/
def firstSome (f : α → Option β) : List α → Option β
  | [] => none
  | x :: xs => match f x with
    | some y => some y
    | none => firstSome f xs

/-- Match exactly `w` digits, returning the rest (`\d{w}`). -/
def skipDigits : Nat → List Char → Option (List Char)
  | 0, cs => some cs
  | _ + 1, [] => none
  | w + 1, c :: cs => if isDig c then skipDigits w cs else none

/-- Case-insensitive literal (the pattern is compiled with `(?i)`). -/
def litCI (a b : Char) : List Char → Option (List Char)
  | [] => none
  | x :: xs => if x = a ∨ x = b then some xs else none

/-- The optional fraction `(?:\.\d+)?` (greedy). -/
def matchFracOpt (cs : List Char) : List Char :=
  match cs with
  | '.' :: c :: rest =>
      if isDig c then (c :: rest).dropWhile isDig else '.' :: c :: rest
  | _ => cs

/-- The optional zone `(?:Z|[+-]\d2:\d2)?` followed by the `$` anchor. -/
def matchTSEnd : List Char → Bool
  | [] => true
  | c :: rest =>
      if c = 'Z' ∨ c = 'z' then rest.isEmpty
      else if c = '+' ∨ c = '-' then
        match skipDigits 2 rest with
        | none => false
        | some cs1 =>
          match lit ':' cs1 with
          | none => false
          | some cs2 =>
            match skipDigits 2 cs2 with
            | none => false
            | some cs3 => cs3.isEmpty
      else false

/-- The `\d4-\d2-\d2T\d2:\d2:\d2` prefix of `gokk.RFC3339Pattern`
(case-insensitive `T`). -/
def matchDT (cs : List Char) : Option (List Char) := do
  let cs ← skipDigits 4 cs
  let cs ← lit '-' cs
  let cs ← skipDigits 2 cs
  let cs ← lit '-' cs
  let cs ← skipDigits 2 cs
  let cs ← litCI 'T' 't' cs
  let cs ← skipDigits 2 cs
  let cs ← lit ':' cs
  let cs ← skipDigits 2 cs
  let cs ← lit ':' cs
  let cs ← skipDigits 2 cs
  pure cs

/-- Full-string match of `gokk.RFC3339Pattern` (case-insensitively). -/
def matchTS (cs : List Char) : Bool :=
  match matchDT cs with
  | none => false
  | some cs => matchTSEnd (matchFracOpt cs)

/-- The `(.+)_([^_]+)_(<ts>)$` tail of the pattern on the text after the
chosen `'@'`: the greedy `(.+)` tries each `'_'` from the right; the
label is the (non-empty) run up to the next `'_'`; the timestamp group
must match to the end. -/
def suffixCaptures (r : List Char) : Option (List Char × List Char × List Char) :=
  firstSome
    (fun pr =>
      if pr.1.isEmpty then none
      else
        match splitFirstAt '_' pr.2 with
        | none => none
        | some (lab, t) =>
            if lab.isEmpty then none
            else if matchTS t then some (pr.1, lab, t) else none)
    ((splitsAtL '_' r).reverse)

/-- `snapNameRegexp.FindStringSubmatch`: the greedy `(.*)` tries each
`'@'` from the right; returns the four capture groups on success. -/
def findSubmatch (s : List Char) : Option (List Char × List Char × List Char × List Char) :=
  firstSome
    (fun pr => (suffixCaptures pr.2).map (fun c => (pr.1, c.1, c.2.1, c.2.2)))
    ((splitsAtL '@' s).reverse)

/-! ### The snapshot-name codec (`snapMetadata`, `Path`, `parseSnapName`) -/

/-- `snapMetadata`: the identity encoded in a snapshot name.  The Go
field `prefix` is named `pfx` here because `prefix` is reserved. -/
structure snapMetadata where
  dataset : Str
  pfx : Str
  label : Str
  ts : GoTime
deriving DecidableEq

/-- `snapMetadata.Path`: `fmt.Sprintf("%s@%s_%s_%s", dataset, prefix,
label, ts.Format(snapNameTimestampFormat))` with
`snapNameTimestampFormat = time.RFC3339`. -/
def snapPath (m : snapMetadata) : Str :=
  m.dataset ++ '@' :: (m.pfx ++ '_' :: (m.label ++ '_' :: goFormatRFC3339 m.ts))

/-- `parseSnapName(expectedPrefix, path)`.  Go returns a
`(*snapMetadata, error)` pair whose three relevant outcomes are: no
regexp match or wrong prefix (`nil, nil`, here `.ok none`); a
`time.Parse` failure (`nil, err`, here `.error` carrying the offending
timestamp text); success (`meta, nil`, here `.ok (some meta)`). -/
def parseSnapName (expPfx path : Str) : Except Str (Option snapMetadata) :=
  match findSubmatch path with
  | none => Except.ok none
  | some (ds, pre, lab, tsStr) =>
      if pre = expPfx then
        match goParseRFC3339 tsStr with
        | none => Except.error tsStr
        | some ts => Except.ok (some ⟨ds, pre, lab, ts⟩)
      else Except.ok none

/-- Timestamps whose RFC3339 rendering is faithfully re-readable: the
calendar fields are in Go `Parse`'s accepted ranges, the year fits the
four-digit layout, and the zone offset fits the two-digit `hh:mm`
rendering. -/
def ValidTS (t : GoTime) : Prop :=
  t.year < 10000 ∧ 1 ≤ t.month ∧ t.month ≤ 12 ∧ 1 ≤ t.day ∧
    t.day ≤ goDaysIn t.month t.year ∧ t.hour ≤ 23 ∧ t.minute ≤ 59 ∧
    t.second ≤ 59 ∧ t.offMin.natAbs < 6000

instance (t : GoTime) : Decidable (ValidTS t) := by
  unfold ValidTS; infer_instance

/-! ### Ordering (`byTS`) -/

/-- Timestamp instant of a snapshot, the key `byTS.Less` compares. -/
def tsKey (m : snapMetadata) : Int := instKey m.ts

/-- Insert while keeping the most-recent-first order of
`byTS.Less(i, j) = a[i].ts.After(a[j].ts)`. -/
def insertByTS (m : snapMetadata) : List snapMetadata → List snapMetadata
  | [] => [m]
  | x :: xs => if tsKey x < tsKey m then m :: x :: xs else x :: insertByTS m xs

/-- `sort.Sort(byTS(snaps))`: sorts most recent first.  (Go's sort is
an unstable comparison sort; any sorted permutation realises it, and
timestamps of one (dataset, label) pair are unique in practice.) -/
def sortByTS (l : List snapMetadata) : List snapMetadata :=
  l.foldr insertByTS []

/-! ### The engine (`Tool.getSnapshots`, `Tool.removeSnapshots`,
`Tool.manageSnapshots`, the enforcement section of `Tool.Main`) -/

/-- A child entry of the in-memory dataset mirror: its full path
(`dd.Path()`) and its `type` property value. -/
structure DNode where
  path : Str
  typ : Str
deriving DecidableEq

/-- The `type` value distinguishing snapshot children. -/
def snapTypeStr : Str := str "snapshot"

/-- The snapshot-children collection pass of `Tool.getSnapshots`:
children of type `snapshot` are parsed; a parse error is returned
immediately; names that are not ours (or carry another label) are
skipped. -/
def collectSnaps (expPfx label : Str) : List DNode → Except Str (List snapMetadata)
  | [] => Except.ok []
  | dd :: rest =>
      if dd.typ = snapTypeStr then
        match parseSnapName expPfx dd.path with
        | Except.error e => Except.error e
        | Except.ok none => collectSnaps expPfx label rest
        | Except.ok (some m) =>
            if m.label = label then
              match collectSnaps expPfx label rest with
              | Except.error e => Except.error e
              | Except.ok ms => Except.ok (m :: ms)
            else collectSnaps expPfx label rest
      else collectSnaps expPfx label rest

/-- `Tool.getSnapshots(d, label)`: collect, then `sort.Sort(byTS(...))`
(most recent first). -/
def getSnapshots (expPfx : Str) (children : List DNode) (label : Str) :
    Except Str (List snapMetadata) :=
  match collectSnaps expPfx label children with
  | Except.error e => Except.error e
  | Except.ok snaps => Except.ok (sortByTS snaps)

/-- Go `map[string]struct` insertion (duplicate keys collapse). -/
def insertKey (ks : List Str) (k : Str) : List Str :=
  if k ∈ ks then ks else k :: ks

/-- The iteration of `Tool.removeSnapshots` over `d.Children`: each
snapshot-type child whose path is still in the requested set is
destroyed (`dd.Destroy(false)`, modelled as succeeding) and removed
from the set.  Returns the destroyed paths in order and the paths that
remained requested. -/
def removeSnapsLoop (remaining acc : List Str) : List DNode → List Str × List Str
  | [] => (acc.reverse, remaining)
  | dd :: rest =>
      if dd.typ = snapTypeStr ∧ dd.path ∈ remaining then
        removeSnapsLoop (remaining.filter (fun k => decide (¬ k = dd.path)))
          (dd.path :: acc) rest
      else removeSnapsLoop remaining acc rest

/-- The error message of `Tool.removeSnapshots`'s final check. -/
def removeErrMsg : Str := str "failed to find all snapshots marked for deletion"

/-- `Tool.removeSnapshots(d, snaps)`: build the requested-path set,
destroy every snapshot child found in it, and error if some requested
path was never located among the snapshot children. -/
def removeSnapshots (children : List DNode) (snaps : List snapMetadata) :
    List Str × Bool :=
  let req := snaps.foldl (fun ks m => insertKey ks (snapPath m)) []
  let r := removeSnapsLoop req [] children
  (r.1, decide (¬ r.2 = []))

/-- The paths of the snapshot-type children of a dataset (the names
`Tool.removeSnapshots` can possibly destroy). -/
def snapChildPaths (children : List DNode) : List Str :=
  (children.filter (fun dd => decide (dd.typ = snapTypeStr))).map (fun dd => dd.path)

/-- A snapshot-series configuration entry (`seriesConfig` in Go):
`Interval` is a `time.Duration` (nanoseconds); `Keep` is the retention
count (validated positive at config-load time). -/
structure seriesConfig where
  Label : Str
  Interval : Int
  Keep : Nat
deriving DecidableEq

/-- The observable outcome of one (dataset, series) iteration of
`Tool.manageSnapshots`. -/
structure SeriesStep where
  label : Str
  createFired : Bool
  created : Option Str
  marked : List snapMetadata
  destroyedPaths : List Str
  err : Option Str
deriving DecidableEq

/-- One series iteration of the `Tool.manageSnapshots` loop body:
fetch the series' snapshots; decide `createNew` from
`len(snaps) == 0 || now.Sub(snaps[0].ts) >= s.Interval`; if so and
creation is allowed, create (modelled as succeeding) and prepend the
new metadata; then, if the resulting list exceeds `s.Keep`, either
destroy `snaps[s.Keep:]` (when destruction is allowed) or log them. -/
def manageOneSeries (allowCreate allowDestroy : Bool) (expPfx dsPath : Str)
    (children : List DNode) (s : seriesConfig) (now : GoTime) : SeriesStep :=
  match getSnapshots expPfx children s.Label with
  | Except.error e =>
      { label := s.Label, createFired := false, created := none,
        marked := [], destroyedPaths := [], err := some e }
  | Except.ok snaps =>
      let cond : Bool :=
        match snaps with
        | [] => true
        | m :: _ => decide (s.Interval ≤ goSub now m.ts)
      let meta : snapMetadata := ⟨dsPath, expPfx, s.Label, now⟩
      let createdPath : Option Str :=
        if cond && allowCreate then some (snapPath meta) else none
      let snaps1 := if cond && allowCreate then meta :: snaps else snaps
      if snaps1.length > s.Keep then
        let mk := snaps1.drop s.Keep
        if allowDestroy then
          let r := removeSnapshots children mk
          { label := s.Label, createFired := cond, created := createdPath,
            marked := mk, destroyedPaths := r.1,
            err := if r.2 then some removeErrMsg else none }
        else
          { label := s.Label, createFired := cond, created := createdPath,
            marked := mk, destroyedPaths := [], err := none }
      else
        { label := s.Label, createFired := cond, created := createdPath,
          marked := [], destroyedPaths := [], err := none }

/-- The create condition of the `Tool.manageSnapshots` loop body,
factored out for statement purposes:
`len(snaps) == 0 || now.Sub(snaps[0].ts) >= s.Interval`. -/
def evalCond (snaps : List snapMetadata) (s : seriesConfig) (now : GoTime) : Bool :=
  match snaps with
  | [] => true
  | m :: _ => decide (s.Interval ≤ goSub now m.ts)

/-- The snapshot list used for trim accounting: the new metadata is
prepended exactly when the create condition fired and creation is
allowed. -/
def evalSnaps1 (ac : Bool) (expPfx dsPath : Str) (s : seriesConfig) (now : GoTime)
    (snaps : List snapMetadata) : List snapMetadata :=
  if evalCond snaps s now && ac then ⟨dsPath, expPfx, s.Label, now⟩ :: snaps
  else snaps

/-- The snapshots marked for destruction (`snaps[s.Keep:]` when the
accounted list exceeds `s.Keep`, else none). -/
def evalMarked (ac : Bool) (expPfx dsPath : Str) (s : seriesConfig) (now : GoTime)
    (snaps : List snapMetadata) : List snapMetadata :=
  let snaps1 := evalSnaps1 ac expPfx dsPath s now snaps
  if snaps1.length > s.Keep then snaps1.drop s.Keep else []

/-- `Tool.manageSnapshots(d, series)`: iterate the series in order;
`time.Now()` is re-read each iteration (modelled by `clock`); any error
(decode error from `getSnapshots`, or the missing-snapshot error from
`removeSnapshots`) is returned immediately, abandoning later series. -/
def manageSnapshotsAux (allowCreate allowDestroy : Bool) (expPfx dsPath : Str)
    (children : List DNode) (clock : Nat → GoTime) (idx : Nat) :
    List seriesConfig → List SeriesStep × Bool
  | [] => ([], false)
  | s :: rest =>
      let step := manageOneSeries allowCreate allowDestroy expPfx dsPath children s (clock idx)
      if step.err.isSome then ([step], true)
      else
        let r := manageSnapshotsAux allowCreate allowDestroy expPfx dsPath children
          clock (idx + 1) rest
        (step :: r.1, r.2)

/-- `Tool.manageSnapshots` over its series list. -/
def manageSnapshots (allowCreate allowDestroy : Bool) (expPfx dsPath : Str)
    (children : List DNode) (series : List seriesConfig) (clock : Nat → GoTime) :
    List SeriesStep × Bool :=
  manageSnapshotsAux allowCreate allowDestroy expPfx dsPath children clock 0 series

/-- The loaded configuration file (`configFile.Series`). -/
structure configFile where
  Series : List seriesConfig

/-- The enforcement section of `Tool.Main` (after dataset selection and
config load): for each remaining target dataset the source calls
`tool.manageSnapshots(d, []seriesConfig{})` — with the literal empty
series slice, not `conf.Series` — and aborts on the first error. -/
def mainEnforceAux (allowCreate allowDestroy : Bool) (expPfx : Str)
    (clock : Nat → GoTime) :
    List (Str × List DNode) → List (Str × List SeriesStep) × Bool
  | [] => ([], false)
  | (p, ch) :: rest =>
      let r := manageSnapshots allowCreate allowDestroy expPfx p ch
        ([] : List seriesConfig) clock
      if r.2 then ([(p, r.1)], true)
      else
        let rs := mainEnforceAux allowCreate allowDestroy expPfx clock rest
        ((p, r.1) :: rs.1, rs.2)

/-- The enforcement loop of `Tool.Main` with the loaded configuration
in scope (`conf` is loaded and logged but, in the source, unused by the
loop). -/
def mainEnforce (allowCreate allowDestroy : Bool) (expPfx : Str)
    (_conf : configFile) (targets : List (Str × List DNode))
    (clock : Nat → GoTime) : List (Str × List SeriesStep) × Bool :=
  mainEnforceAux allowCreate allowDestroy expPfx clock targets

/-- The (dataset, label) pairs for which the create/destroy decision
logic actually ran in an enforcement-loop outcome. -/
def evaluatedPairs (out : List (Str × List SeriesStep) × Bool) : List (Str × Str) :=
  out.1.flatMap (fun t => t.2.map (fun st => (t.1, st.label)))

/-- A constant clock (each `time.Now()` call returns the same instant),
for concrete enforcement-loop scenarios. -/
def constClock (t : GoTime) : Nat → GoTime := fun _ => t

/-! ### Dataset exclusion (`Tool.datasetExcluded`) -/

/-- `AutoSnapshotProperty = "com.sun:auto-snapshot"`. -/
def autoSnapshotProperty : Str := str "com.sun:auto-snapshot"

/-- `strings.ToLower`, ASCII case mapping.  (Go's mapping is
Unicode-wide; the two agree on every string whose lowering can equal
`"true"` or `"false"`, which is all `datasetExcluded` inspects.) -/
def goToLower (s : Str) : Str :=
  s.map (fun c => if 65 ≤ c.toNat ∧ c.toNat ≤ 90 then Char.ofNat (c.toNat + 32) else c)

/-- Look up a key in the user-property map (keys unique, Go map). -/
def lookupProp (key : Str) (props : List (Str × Str)) : Option Str :=
  firstSome (fun kv => if kv.1 = key then some kv.2 else none) props

/-- `Tool.datasetExcluded(d, defaultExclude)`: returns (excluded,
warned).  Absent property: the default.  `"true"`/`"false"` (lowered):
include/exclude.  Anything else: warn and use the default. -/
def datasetExcluded (userProps : List (Str × Str)) (dfltExclude : Bool) : Bool × Bool :=
  match lookupProp autoSnapshotProperty userProps with
  | none => (dfltExclude, false)
  | some v =>
      if goToLower v = str "true" then (false, false)
      else if goToLower v = str "false" then (true, false)
      else (dfltExclude, true)

/-! ## Lemmas

### Digit strings -/

theorem isDig_iff {c : Char} : isDig c = true ↔ 48 ≤ c.toNat ∧ c.toNat ≤ 57 := by
  simp [isDig]

theorem isDig_ne_at {c : Char} (h : isDig c = true) : c ≠ '@' ∧ c ≠ '_' := by
  constructor <;> rintro rfl <;> exact absurd h (by decide)

theorem digitChar_toNat {n : Nat} (h : n < 10) : (Nat.digitChar n).toNat = 48 + n := by
  interval_cases n <;> rfl

theorem isDig_digitChar {n : Nat} (h : n < 10) : isDig (Nat.digitChar n) = true := by
  interval_cases n <;> rfl

theorem charVal_digitChar {n : Nat} (h : n < 10) : charVal (Nat.digitChar n) = n := by
  simp [charVal, digitChar_toNat h]

theorem natDigitsAux_digits :
    ∀ f n, n < f → ∀ c ∈ natDigitsAux f n, isDig c = true := by
  intro f
  induction f with
  | zero => intro n h; omega
  | succ f ih =>
      intro n _h c hc
      by_cases h10 : n < 10
      · simp only [natDigitsAux, if_pos h10, List.mem_singleton] at hc
        subst hc; exact isDig_digitChar h10
      · simp only [natDigitsAux, if_neg h10, List.mem_append, List.mem_singleton] at hc
        rcases hc with hc | hc
        · have hd : n / 10 < n := Nat.div_lt_self (by omega) (by omega)
          exact ih (n / 10) (by omega) c hc
        · subst hc; exact isDig_digitChar (Nat.mod_lt _ (by omega))

theorem dvFrom_append (a : Nat) (xs ys : List Char) :
    dvFrom a (xs ++ ys) = dvFrom (dvFrom a xs) ys := by
  induction xs generalizing a with
  | nil => rfl
  | cons c cs ih =>
      show dvFrom (10 * a + charVal c) (cs ++ ys)
        = dvFrom (dvFrom (10 * a + charVal c) cs) ys
      exact ih _

theorem natDigitsAux_val : ∀ f n, n < f → dvFrom 0 (natDigitsAux f n) = n := by
  intro f
  induction f with
  | zero => intro n h; omega
  | succ f ih =>
      intro n _h
      by_cases h10 : n < 10
      · simp only [natDigitsAux, if_pos h10]
        show 10 * 0 + charVal (Nat.digitChar n) = n
        rw [charVal_digitChar h10]
        omega
      · simp only [natDigitsAux, if_neg h10]
        have hd : n / 10 < n := Nat.div_lt_self (by omega) (by omega)
        rw [dvFrom_append, ih (n / 10) (by omega)]
        have hm : n % 10 < 10 := Nat.mod_lt _ (by omega)
        show 10 * (n / 10) + charVal (Nat.digitChar (n % 10)) = n
        rw [charVal_digitChar hm]
        omega

theorem natDigitsAux_len :
    ∀ f n k, n < f → n < 10 ^ k → 1 ≤ k → (natDigitsAux f n).length ≤ k := by
  intro f
  induction f with
  | zero => intro n k h; omega
  | succ f ih =>
      intro n k _h hk h1
      by_cases h10 : n < 10
      · simp [natDigitsAux, if_pos h10]
        omega
      · simp only [natDigitsAux, if_neg h10, List.length_append, List.length_singleton]
        have hd : n / 10 < n := Nat.div_lt_self (by omega) (by omega)
        have h2 : 2 ≤ k := by
          by_contra hcon
          have : k = 1 := by omega
          subst this
          simp at hk
          omega
        have hpow : 10 ^ k = 10 ^ (k - 1) * 10 := by
          rw [← pow_succ]
          congr 1
          omega
        have hdiv : n / 10 < 10 ^ (k - 1) := by
          rw [Nat.div_lt_iff_lt_mul (by omega)]
          omega
        have := ih (n / 10) (k - 1) (by omega) hdiv (by omega)
        omega

theorem natDigits_digits {n : Nat} : ∀ c ∈ natDigits n, isDig c = true :=
  natDigitsAux_digits (n + 1) n (by omega)

theorem natDigits_val (n : Nat) : dvFrom 0 (natDigits n) = n :=
  natDigitsAux_val (n + 1) n (by omega)

theorem natDigits_len {n k : Nat} (hk : n < 10 ^ k) (h1 : 1 ≤ k) :
    (natDigits n).length ≤ k :=
  natDigitsAux_len (n + 1) n k (by omega) hk h1

theorem goAppendInt_len {n w : Nat} (h : n < 10 ^ w) (hw : 1 ≤ w) :
    (goAppendInt n w).length = w := by
  have := natDigits_len h hw
  simp [goAppendInt, leftPad]
  omega

theorem goAppendInt_digits {n w : Nat} : ∀ c ∈ goAppendInt n w, isDig c = true := by
  intro c hc
  simp only [goAppendInt, leftPad, List.mem_append] at hc
  rcases hc with hc | hc
  · have := List.eq_of_mem_replicate hc
    subst this; rfl
  · exact natDigits_digits c hc

theorem dvFrom_zeros (m : Nat) (cs : List Char) :
    dvFrom 0 (List.replicate m '0' ++ cs) = dvFrom 0 cs := by
  induction m with
  | zero => rfl
  | succ m ih =>
      rw [List.replicate_succ, List.cons_append]
      show dvFrom (10 * 0 + charVal '0') (List.replicate m '0' ++ cs) = dvFrom 0 cs
      have hz : 10 * 0 + charVal '0' = 0 := rfl
      rw [hz, ih]

theorem goAppendInt_val (n w : Nat) : dvFrom 0 (goAppendInt n w) = n := by
  rw [goAppendInt, leftPad, dvFrom_zeros, natDigits_val]

theorem readDigitsAcc_exact :
    ∀ (ds : List Char) (a : Nat) (rest : List Char), (∀ c ∈ ds, isDig c = true) →
      readDigitsAcc a ds.length (ds ++ rest) = some (dvFrom a ds, rest) := by
  intro ds
  induction ds with
  | nil => intro a rest _; rfl
  | cons c cs ih =>
      intro a rest hd
      have hc : isDig c = true := hd c (by simp)
      simp only [List.length_cons, List.cons_append, readDigitsAcc, hc, if_pos]
      exact ih _ rest (fun x hx => hd x (by simp [hx]))

theorem readDigitsAcc_appendInt {n w : Nat} (rest : List Char)
    (h : n < 10 ^ w) (hw : 1 ≤ w) :
    readDigitsAcc 0 w (goAppendInt n w ++ rest) = some (n, rest) := by
  have hl := goAppendInt_len h hw
  have := readDigitsAcc_exact (goAppendInt n w) 0 rest (fun c hc => goAppendInt_digits c hc)
  rw [hl, goAppendInt_val] at this
  exact this

theorem skipDigits_exact :
    ∀ (ds rest : List Char), (∀ c ∈ ds, isDig c = true) →
      skipDigits ds.length (ds ++ rest) = some rest := by
  intro ds
  induction ds with
  | nil => intro rest _; rfl
  | cons c cs ih =>
      intro rest hd
      have hc : isDig c = true := hd c (by simp)
      simp only [List.length_cons, List.cons_append, skipDigits, hc, if_pos]
      exact ih rest (fun x hx => hd x (by simp [hx]))

theorem skipDigits_appendInt {n w : Nat} (rest : List Char)
    (h : n < 10 ^ w) (hw : 1 ≤ w) :
    skipDigits w (goAppendInt n w ++ rest) = some rest := by
  have hl := goAppendInt_len h hw
  have := skipDigits_exact (goAppendInt n w) rest (fun c hc => goAppendInt_digits c hc)
  rw [hl] at this
  exact this

/-! ### Characters of the rendered timestamp -/

theorem lit_cons_self (c : Char) (xs : List Char) : lit c (c :: xs) = some xs := by
  simp [lit]

theorem litCI_fst (a b : Char) (xs : List Char) : litCI a b (a :: xs) = some xs := by
  simp [litCI]

theorem zonePart_chars {t : GoTime} {c : Char} (hc : c ∈ zonePart t) :
    c ≠ '@' ∧ c ≠ '_' := by
  have hA : ∀ {n w : Nat}, c ∈ goAppendInt n w → c ≠ '@' ∧ c ≠ '_' :=
    fun h => isDig_ne_at (goAppendInt_digits c h)
  unfold zonePart at hc
  split at hc
  · simp only [List.mem_singleton] at hc
    subst hc; exact ⟨by decide, by decide⟩
  · rcases List.mem_cons.1 hc with h | h
    · subst h; split <;> exact ⟨by decide, by decide⟩
    · rcases List.mem_append.1 h with h | h
      · exact hA h
      · rcases List.mem_cons.1 h with h | h
        · subst h; exact ⟨by decide, by decide⟩
        · exact hA h

theorem dtPart_chars {t : GoTime} {c : Char} (hc : c ∈ dtPart t) :
    c ≠ '@' ∧ c ≠ '_' := by
  have hA : ∀ {n w : Nat}, c ∈ goAppendInt n w → c ≠ '@' ∧ c ≠ '_' :=
    fun h => isDig_ne_at (goAppendInt_digits c h)
  simp only [dtPart, List.append_assoc, List.cons_append, List.mem_append,
    List.mem_cons] at hc
  rcases hc with h | h | h | h | h | h | h | h | h | h | h
  · exact hA h
  · subst h; exact ⟨by decide, by decide⟩
  · exact hA h
  · subst h; exact ⟨by decide, by decide⟩
  · exact hA h
  · subst h; exact ⟨by decide, by decide⟩
  · exact hA h
  · subst h; exact ⟨by decide, by decide⟩
  · exact hA h
  · subst h; exact ⟨by decide, by decide⟩
  · exact hA h

theorem goFormat_chars {t : GoTime} {c : Char} (hc : c ∈ goFormatRFC3339 t) :
    c ≠ '@' ∧ c ≠ '_' := by
  rcases List.mem_append.1 hc with h | h
  · exact dtPart_chars h
  · exact zonePart_chars h

theorem at_not_mem_format (t : GoTime) : '@' ∉ goFormatRFC3339 t :=
  fun h => (goFormat_chars h).1 rfl

theorem us_not_mem_format (t : GoTime) : '_' ∉ goFormatRFC3339 t :=
  fun h => (goFormat_chars h).2 rfl

/-! ### The rendered timestamp matches the pattern and re-parses -/

theorem matchDT_format (t : GoTime) (z : List Char)
    (hy : t.year < 10000) (hmo : t.month < 100) (hd : t.day < 100)
    (hh : t.hour < 100) (hmi : t.minute < 100) (hs : t.second < 100) :
    matchDT (dtPart t ++ z) = some z := by
  have e4 : (10000 : Nat) = 10 ^ 4 := by norm_num
  have e2 : (100 : Nat) = 10 ^ 2 := by norm_num
  rw [e4] at hy; rw [e2] at hmo hd hh hmi hs
  simp only [matchDT, dtPart, List.append_assoc, List.cons_append]
  rw [skipDigits_appendInt _ hy (by omega)]
  simp only [Option.bind_eq_bind, Option.some_bind, lit_cons_self]
  rw [skipDigits_appendInt _ hmo (by omega)]
  simp only [Option.some_bind, lit_cons_self]
  rw [skipDigits_appendInt _ hd (by omega)]
  simp only [Option.some_bind, litCI_fst]
  rw [skipDigits_appendInt _ hh (by omega)]
  simp only [Option.some_bind, lit_cons_self]
  rw [skipDigits_appendInt _ hmi (by omega)]
  simp only [Option.some_bind, lit_cons_self]
  rw [skipDigits_appendInt _ hs (by omega)]
  simp only [Option.some_bind]
  rfl

theorem parseDT_format (t : GoTime) (z : List Char)
    (hy : t.year < 10000) (hmo : t.month < 100) (hd : t.day < 100)
    (hh : t.hour < 100) (hmi : t.minute < 100) (hs : t.second < 100) :
    parseDT (dtPart t ++ z)
      = some (t.year, t.month, t.day, t.hour, t.minute, t.second, z) := by
  have e4 : (10000 : Nat) = 10 ^ 4 := by norm_num
  have e2 : (100 : Nat) = 10 ^ 2 := by norm_num
  rw [e4] at hy; rw [e2] at hmo hd hh hmi hs
  simp only [parseDT, dtPart, List.append_assoc, List.cons_append]
  rw [readDigitsAcc_appendInt _ hy (by omega)]
  simp only [Option.bind_eq_bind, Option.some_bind, lit_cons_self]
  rw [readDigitsAcc_appendInt _ hmo (by omega)]
  simp only [Option.some_bind, lit_cons_self]
  rw [readDigitsAcc_appendInt _ hd (by omega)]
  simp only [Option.some_bind, lit_cons_self]
  rw [readDigitsAcc_appendInt _ hh (by omega)]
  simp only [Option.some_bind, lit_cons_self]
  rw [readDigitsAcc_appendInt _ hmi (by omega)]
  simp only [Option.some_bind, lit_cons_self]
  rw [readDigitsAcc_appendInt _ hs (by omega)]
  simp only [Option.some_bind]
  rfl

theorem matchFracOpt_head {c : Char} (cs : List Char) (h : c ≠ '.') :
    matchFracOpt (c :: cs) = c :: cs := by
  unfold matchFracOpt
  split
  · next c2 rest heq =>
      rw [List.cons.injEq] at heq
      exact absurd heq.1 h
  · rfl

theorem scanFrac_head {c : Char} (cs : List Char) (h1 : c ≠ '.') (h2 : c ≠ ',') :
    scanFrac (c :: cs) = (FracRes.nofrac, c :: cs) := by
  cases cs with
  | nil => rfl
  | cons c2 rest =>
      simp only [scanFrac]
      rw [if_neg]
      rintro ⟨hc, _⟩
      rcases hc with hc | hc
      · exact h1 hc
      · exact h2 hc

theorem zonePart_head_ne (t : GoTime) :
    ∃ c cs, zonePart t = c :: cs ∧ c ≠ '.' ∧ c ≠ ',' := by
  unfold zonePart
  split
  · exact ⟨'Z', [], rfl, by decide, by decide⟩
  · split
    · exact ⟨'-', _, rfl, by decide, by decide⟩
    · exact ⟨'+', _, rfl, by decide, by decide⟩

theorem matchFracOpt_zone (t : GoTime) : matchFracOpt (zonePart t) = zonePart t := by
  obtain ⟨c, cs, heq, h1, _⟩ := zonePart_head_ne t
  rw [heq, matchFracOpt_head cs h1]

theorem scanFrac_zone (t : GoTime) :
    scanFrac (zonePart t) = (FracRes.nofrac, zonePart t) := by
  obtain ⟨c, cs, heq, h1, h2⟩ := zonePart_head_ne t
  rw [heq, scanFrac_head cs h1 h2]

theorem readDigitsAcc_appendInt_nil {n w : Nat} (h : n < 10 ^ w) (hw : 1 ≤ w) :
    readDigitsAcc 0 w (goAppendInt n w) = some (n, []) := by
  have := readDigitsAcc_appendInt ([] : List Char) h hw
  simpa using this

theorem skipDigits_appendInt_nil {n w : Nat} (h : n < 10 ^ w) (hw : 1 ≤ w) :
    skipDigits w (goAppendInt n w) = some [] := by
  have := skipDigits_appendInt ([] : List Char) h hw
  simpa using this

theorem matchTSEnd_zone (t : GoTime) (hoff : t.offMin.natAbs < 6000) :
    matchTSEnd (zonePart t) = true := by
  have e2 : (100 : Nat) = 10 ^ 2 := by norm_num
  have hhh : t.offMin.natAbs / 60 < 10 ^ 2 := by rw [← e2]; omega
  have hmm : t.offMin.natAbs % 60 < 10 ^ 2 := by
    rw [← e2]
    have := Nat.mod_lt t.offMin.natAbs (show 0 < 60 by omega)
    omega
  have hsign : ∀ s : Char, ¬(s = 'Z' ∨ s = 'z') → (s = '+' ∨ s = '-') →
      matchTSEnd (s :: (goAppendInt (t.offMin.natAbs / 60) 2
        ++ ':' :: goAppendInt (t.offMin.natAbs % 60) 2)) = true := by
    intro s hz hs
    simp only [matchTSEnd, if_neg hz, if_pos hs]
    rw [skipDigits_appendInt _ hhh (by omega)]
    simp only [lit_cons_self]
    rw [skipDigits_appendInt_nil hmm (by omega)]
    rfl
  unfold zonePart
  split
  · rfl
  · split
    · exact hsign '-' (by decide) (Or.inr rfl)
    · exact hsign '+' (by decide) (Or.inl rfl)

theorem matchTS_format (t : GoTime)
    (hy : t.year < 10000) (hmo : t.month < 100) (hd : t.day < 100)
    (hh : t.hour < 100) (hmi : t.minute < 100) (hs : t.second < 100)
    (hoff : t.offMin.natAbs < 6000) :
    matchTS (goFormatRFC3339 t) = true := by
  unfold matchTS goFormatRFC3339
  rw [matchDT_format t (zonePart t) hy hmo hd hh hmi hs]
  show matchTSEnd (matchFracOpt (zonePart t)) = true
  rw [matchFracOpt_zone]
  exact matchTSEnd_zone t hoff

theorem parseZone_format (t : GoTime) (hoff : t.offMin.natAbs < 6000) :
    parseZone (zonePart t) = some (t.offMin, []) := by
  have e2 : (100 : Nat) = 10 ^ 2 := by norm_num
  have hhh : t.offMin.natAbs / 60 < 10 ^ 2 := by rw [← e2]; omega
  have hmm : t.offMin.natAbs % 60 < 10 ^ 2 := by
    rw [← e2]
    have := Nat.mod_lt t.offMin.natAbs (show 0 < 60 by omega)
    omega
  unfold zonePart
  split
  · next h0 => rw [h0]; rfl
  · next h0 =>
      split
      · next hneg =>
          simp [parseZone]
          rw [readDigitsAcc_appendInt _ hhh (by omega)]
          simp only [lit_cons_self]
          rw [readDigitsAcc_appendInt_nil hmm (by omega)]
          simp only [Option.some.injEq, Prod.mk.injEq, and_true]
          omega
      · next hpos =>
          simp [parseZone]
          rw [readDigitsAcc_appendInt _ hhh (by omega)]
          simp only [lit_cons_self]
          rw [readDigitsAcc_appendInt_nil hmm (by omega)]
          simp only [Option.some.injEq, Prod.mk.injEq, and_true]
          omega

theorem goDaysIn_le (m y : Nat) : goDaysIn m y ≤ 31 := by
  unfold goDaysIn
  split
  · omega
  · have hgen : ∀ i, List.getD [31, 28, 31, 30, 31, 30, 31, 31, 30, 31, 30, 31] i 0 ≤ 31 := by
      intro i
      by_cases hi : i < 12
      · interval_cases i <;> decide
      · rw [List.getD_eq_default]
        · omega
        · simp
          omega
    exact hgen (m - 1)

theorem goParse_format (t : GoTime)
    (hy : t.year < 10000) (hmo1 : 1 ≤ t.month) (hmo : t.month ≤ 12)
    (hd1 : 1 ≤ t.day) (hd : t.day ≤ goDaysIn t.month t.year)
    (hh : t.hour ≤ 23) (hmi : t.minute ≤ 59) (hs : t.second ≤ 59)
    (hns : t.nsec = 0) (hoff : t.offMin.natAbs < 6000) :
    goParseRFC3339 (goFormatRFC3339 t) = some t := by
  obtain ⟨y, mo, d, hr, mi, s, ns, off⟩ := t
  simp only at hy hmo1 hmo hd1 hd hh hmi hs hns hoff
  subst hns
  unfold goParseRFC3339 goFormatRFC3339
  have hd31 : d < 100 := by
    have := goDaysIn_le mo y
    omega
  rw [parseDT_format _ _ (show y < 10000 by omega) (show mo < 100 by omega)
    hd31 (show hr < 100 by omega) (show mi < 100 by omega)
    (show s < 100 by omega)]
  simp only [Option.bind_eq_bind, Option.some_bind]
  rw [scanFrac_zone]
  simp only [Option.some_bind]
  rw [parseZone_format _ hoff]
  simp only [Option.some_bind]
  rw [if_pos]
  · rfl
  · exact ⟨by simp, hmo1, hmo, hd1, hd, hh, hmi, hs⟩

/-! ### Splitting lemmas for the backtracking matcher -/

theorem splitsAtL_not_mem {c : Char} : ∀ {l : List Char}, c ∉ l → splitsAtL c l = [] := by
  intro l
  induction l with
  | nil => intro _; rfl
  | cons x xs ih =>
      intro h
      have hx : ¬x = c := fun he => h (he ▸ List.mem_cons_self x xs)
      simp only [splitsAtL, if_neg hx, List.nil_append]
      rw [ih (fun hm => h (List.mem_cons_of_mem x hm))]
      rfl

theorem splitsAtL_append (c : Char) (xs ys : List Char) :
    splitsAtL c (xs ++ ys)
      = (splitsAtL c xs).map (fun p => (p.1, p.2 ++ ys))
        ++ (splitsAtL c ys).map (fun p => (xs ++ p.1, p.2)) := by
  induction xs with
  | nil => simp [splitsAtL]
  | cons x xs ih =>
      by_cases hx : x = c
      · subst hx
        simp only [List.cons_append, splitsAtL, if_pos rfl, List.append_eq]
        rw [ih]
        simp [List.map_append, List.map_map, Function.comp_def]
      · simp only [List.cons_append, splitsAtL, if_neg hx, List.nil_append,
          List.append_eq]
        rw [ih]
        simp [List.map_append, List.map_map, Function.comp_def]

theorem splitFirstAt_not_mem {c : Char} : ∀ {l : List Char}, c ∉ l →
    splitFirstAt c l = none := by
  intro l
  induction l with
  | nil => intro _; rfl
  | cons x xs ih =>
      intro h
      have hx : ¬x = c := fun he => h (he ▸ List.mem_cons_self x xs)
      simp only [splitFirstAt, if_neg hx]
      rw [ih (fun hm => h (List.mem_cons_of_mem x hm))]
      rfl

theorem splitFirstAt_append {c : Char} : ∀ {xs : List Char} (ys : List Char),
    c ∉ xs → splitFirstAt c (xs ++ c :: ys) = some (xs, ys) := by
  intro xs
  induction xs with
  | nil => intro ys _; simp [splitFirstAt]
  | cons x xs ih =>
      intro ys h
      have hx : ¬x = c := fun he => h (he ▸ List.mem_cons_self x xs)
      simp only [List.cons_append, splitFirstAt, if_neg hx, List.append_eq]
      rw [ih ys (fun hm => h (List.mem_cons_of_mem x hm))]
      rfl

theorem firstSome_cons_none {f : α → Option β} {x : α} {xs : List α}
    (h : f x = none) : firstSome f (x :: xs) = firstSome f xs := by
  simp [firstSome, h]

theorem firstSome_cons_some {f : α → Option β} {x : α} {xs : List α} {y : β}
    (h : f x = some y) : firstSome f (x :: xs) = some y := by
  simp [firstSome, h]

theorem isEmpty_append_cons (xs : List Char) (c : Char) (ys : List Char) :
    (xs ++ c :: ys).isEmpty = false := by
  cases xs <;> rfl

theorem isEmpty_false_of_ne_nil {l : List Char} (h : l ≠ []) : l.isEmpty = false := by
  cases l with
  | nil => exact absurd rfl h
  | cons x xs => rfl

/-! ### The matcher on an encoded name -/

theorem suffixCaptures_encoded (pre lab T : List Char)
    (hpre : pre ≠ []) (hlabne : lab ≠ []) (hlab : '_' ∉ lab) (hT : '_' ∉ T)
    (hTS : matchTS T = true) :
    suffixCaptures (pre ++ '_' :: (lab ++ '_' :: T)) = some (pre, lab, T) := by
  have h1 : splitsAtL '_' T = [] := splitsAtL_not_mem hT
  have h2 : splitsAtL '_' lab = [] := splitsAtL_not_mem hlab
  have h4 : splitsAtL '_' (lab ++ '_' :: T) = [(lab, T)] := by
    rw [splitsAtL_append]
    simp [splitsAtL, h1, h2]
  have h6 : splitsAtL '_' (pre ++ '_' :: (lab ++ '_' :: T))
      = (splitsAtL '_' pre).map (fun p => (p.1, p.2 ++ '_' :: (lab ++ '_' :: T)))
        ++ [(pre, lab ++ '_' :: T), (pre ++ '_' :: lab, T)] := by
    rw [splitsAtL_append]
    simp [splitsAtL, h4]
  unfold suffixCaptures
  rw [h6, List.reverse_append]
  have hrev : ([(pre, lab ++ '_' :: T), (pre ++ '_' :: lab, T)] :
      List (List Char × List Char)).reverse
      = [(pre ++ '_' :: lab, T), (pre, lab ++ '_' :: T)] := by rfl
  rw [hrev]
  simp only [List.cons_append, List.nil_append]
  simp only [firstSome, isEmpty_append_cons, isEmpty_false_of_ne_nil hpre,
    isEmpty_false_of_ne_nil hlabne, Bool.false_eq_true, if_false,
    splitFirstAt_not_mem hT, splitFirstAt_append T hlab, hTS, if_true]

theorem findSubmatch_encoded (ds pre lab T : List Char)
    (hpreA : '@' ∉ pre) (hlabA : '@' ∉ lab) (hTA : '@' ∉ T)
    (hsfx : suffixCaptures (pre ++ '_' :: (lab ++ '_' :: T)) = some (pre, lab, T)) :
    findSubmatch (ds ++ '@' :: (pre ++ '_' :: (lab ++ '_' :: T)))
      = some (ds, pre, lab, T) := by
  have hR : '@' ∉ (pre ++ '_' :: (lab ++ '_' :: T)) := by
    simp only [List.mem_append, List.mem_cons]
    rintro (h | h | h | h | h)
    · exact hpreA h
    · exact absurd h (by decide)
    · exact hlabA h
    · exact absurd h (by decide)
    · exact hTA h
  have h3 : splitsAtL '@' (ds ++ '@' :: (pre ++ '_' :: (lab ++ '_' :: T)))
      = (splitsAtL '@' ds).map
          (fun p => (p.1, p.2 ++ '@' :: (pre ++ '_' :: (lab ++ '_' :: T))))
        ++ [(ds, pre ++ '_' :: (lab ++ '_' :: T))] := by
    rw [splitsAtL_append]
    simp [splitsAtL, splitsAtL_not_mem hR]
  unfold findSubmatch
  rw [h3, List.reverse_append]
  rw [show ([(ds, pre ++ '_' :: (lab ++ '_' :: T))] :
      List (List Char × List Char)).reverse
      = [(ds, pre ++ '_' :: (lab ++ '_' :: T))] from rfl]
  simp only [List.cons_append, List.nil_append]
  simp only [firstSome, hsfx]
  rfl

/-! ### Round trip of the codec -/

theorem parseSnapName_encode (m : snapMetadata)
    (hpre : m.pfx ≠ []) (hpreA : '@' ∉ m.pfx)
    (hlabne : m.label ≠ []) (hlabU : '_' ∉ m.label) (hlabA : '@' ∉ m.label)
    (hv : ValidTS m.ts) (hns : m.ts.nsec = 0) :
    parseSnapName m.pfx (snapPath m) = Except.ok (some m) := by
  obtain ⟨hy, hmo1, hmo, hd1, hd, hh, hmi, hs, hoff⟩ := hv
  have hd100 : m.ts.day < 100 := by
    have := goDaysIn_le m.ts.month m.ts.year
    omega
  have hTS : matchTS (goFormatRFC3339 m.ts) = true :=
    matchTS_format _ hy (by omega) hd100 (by omega) (by omega) (by omega) hoff
  unfold parseSnapName snapPath
  rw [findSubmatch_encoded _ _ _ _ hpreA hlabA (at_not_mem_format m.ts)
    (suffixCaptures_encoded _ _ _ hpre hlabne hlabU (us_not_mem_format m.ts) hTS)]
  simp [goParse_format m.ts hy hmo1 hmo hd1 hd hh hmi hs hns hoff]

/-! ### Sorting (`byTS`) facts -/

theorem mem_insertByTS {m y : snapMetadata} :
    ∀ {l : List snapMetadata}, y ∈ insertByTS m l ↔ y = m ∨ y ∈ l := by
  intro l
  induction l with
  | nil => simp [insertByTS]
  | cons x xs ih =>
      by_cases hx : tsKey x < tsKey m
      · simp [insertByTS, if_pos hx]
      · simp only [insertByTS, if_neg hx, List.mem_cons, ih]
        tauto

theorem length_insertByTS (m : snapMetadata) :
    ∀ l : List snapMetadata, (insertByTS m l).length = l.length + 1 := by
  intro l
  induction l with
  | nil => rfl
  | cons x xs ih =>
      by_cases hx : tsKey x < tsKey m
      · simp [insertByTS, if_pos hx]
      · simp only [insertByTS, if_neg hx, List.length_cons, ih]

theorem pairwise_insertByTS {m : snapMetadata} :
    ∀ {l : List snapMetadata},
      l.Pairwise (fun a b => tsKey b ≤ tsKey a) →
      (insertByTS m l).Pairwise (fun a b => tsKey b ≤ tsKey a) := by
  intro l
  induction l with
  | nil => intro _; simp [insertByTS]
  | cons x xs ih =>
      intro h
      rcases List.pairwise_cons.1 h with ⟨hx, hxs⟩
      by_cases hlt : tsKey x < tsKey m
      · simp only [insertByTS, if_pos hlt]
        refine List.pairwise_cons.2 ⟨?_, h⟩
        intro y hy
        rcases List.mem_cons.1 hy with hy | hy
        · subst hy; omega
        · have := hx y hy; omega
      · simp only [insertByTS, if_neg hlt]
        refine List.pairwise_cons.2 ⟨?_, ih hxs⟩
        intro y hy
        rcases mem_insertByTS.1 hy with hy | hy
        · subst hy; omega
        · exact hx y hy

theorem sortByTS_pairwise (l : List snapMetadata) :
    (sortByTS l).Pairwise (fun a b => tsKey b ≤ tsKey a) := by
  induction l with
  | nil => simp [sortByTS]
  | cons x xs ih => exact pairwise_insertByTS ih

theorem mem_sortByTS {y : snapMetadata} :
    ∀ {l : List snapMetadata}, y ∈ sortByTS l ↔ y ∈ l := by
  intro l
  induction l with
  | nil => simp [sortByTS]
  | cons x xs ih =>
      show y ∈ insertByTS x (sortByTS xs) ↔ _
      rw [mem_insertByTS]
      simp [ih, List.mem_cons]

theorem length_sortByTS :
    ∀ l : List snapMetadata, (sortByTS l).length = l.length := by
  intro l
  induction l with
  | nil => rfl
  | cons x xs ih =>
      show (insertByTS x (sortByTS xs)).length = xs.length + 1
      rw [length_insertByTS, ih]

theorem pairwise_head_max {x : snapMetadata} {xs : List snapMetadata}
    (h : (x :: xs).Pairwise (fun a b => tsKey b ≤ tsKey a)) :
    ∀ y ∈ x :: xs, tsKey y ≤ tsKey x := by
  intro y hy
  rcases List.mem_cons.1 hy with hy | hy
  · subst hy; omega
  · exact (List.pairwise_cons.1 h).1 y hy

theorem getSnapshots_sorted {expPfx : Str} {children : List DNode} {label : Str}
    {snaps : List snapMetadata}
    (h : getSnapshots expPfx children label = Except.ok snaps) :
    snaps.Pairwise (fun a b => tsKey b ≤ tsKey a) := by
  unfold getSnapshots at h
  cases hc : collectSnaps expPfx label children with
  | error e => rw [hc] at h; cases h
  | ok ms =>
      rw [hc] at h
      cases h
      exact sortByTS_pairwise ms

/-! ### Projections of one series iteration -/

theorem manageOneSeries_createFired (ac ad : Bool) (expPfx dsPath : Str)
    (children : List DNode) (s : seriesConfig) (now : GoTime)
    (snaps : List snapMetadata)
    (hgs : getSnapshots expPfx children s.Label = Except.ok snaps) :
    (manageOneSeries ac ad expPfx dsPath children s now).createFired
      = evalCond snaps s now := by
  unfold manageOneSeries evalCond
  split
  · next e heq => rw [hgs] at heq; cases heq
  · next snaps' heq =>
      rw [hgs] at heq
      injection heq with heq2
      subst heq2
      cases snaps with
      | nil =>
          dsimp only
          repeat' split
          all_goals rfl
      | cons m rest =>
          dsimp only
          repeat' split
          all_goals rfl

theorem manageOneSeries_marked (ac ad : Bool) (expPfx dsPath : Str)
    (children : List DNode) (s : seriesConfig) (now : GoTime)
    (snaps : List snapMetadata)
    (hgs : getSnapshots expPfx children s.Label = Except.ok snaps) :
    (manageOneSeries ac ad expPfx dsPath children s now).marked
      = evalMarked ac expPfx dsPath s now snaps := by
  unfold manageOneSeries evalMarked evalSnaps1 evalCond
  split
  · next e heq => rw [hgs] at heq; cases heq
  · next snaps' heq =>
      rw [hgs] at heq
      injection heq with heq2
      subst heq2
      cases snaps with
      | nil =>
          dsimp only
          repeat' split
          all_goals rfl
      | cons m rest =>
          dsimp only
          repeat' split
          all_goals rfl

theorem manageOneSeries_err_none (ac : Bool) (expPfx dsPath : Str)
    (children : List DNode) (s : seriesConfig) (now : GoTime)
    (snaps : List snapMetadata)
    (hgs : getSnapshots expPfx children s.Label = Except.ok snaps) :
    (manageOneSeries ac false expPfx dsPath children s now).err = none := by
  unfold manageOneSeries
  split
  · next e heq => rw [hgs] at heq; cases heq
  · next snaps' heq =>
      rw [hgs] at heq
      injection heq with heq2
      subst heq2
      cases snaps with
      | nil =>
          dsimp only
          repeat' split
          all_goals (first | rfl | simp_all)
      | cons m rest =>
          dsimp only
          repeat' split
          all_goals (first | rfl | simp_all)

theorem manageOneSeries_error (ac ad : Bool) (expPfx dsPath : Str)
    (children : List DNode) (s : seriesConfig) (now : GoTime) (e : Str)
    (hgs : getSnapshots expPfx children s.Label = Except.error e) :
    manageOneSeries ac ad expPfx dsPath children s now
      = { label := s.Label, createFired := false, created := none,
          marked := [], destroyedPaths := [], err := some e } := by
  unfold manageOneSeries
  split
  · next e' heq =>
      rw [hgs] at heq
      injection heq with heq2
      subst heq2
      rfl
  · next snaps' heq => rw [hgs] at heq; cases heq

/-! ### `removeSnapshots` analysis -/

theorem mem_snapChildPaths {p : Str} {children : List DNode} :
    p ∈ snapChildPaths children
      ↔ ∃ dd ∈ children, dd.typ = snapTypeStr ∧ dd.path = p := by
  unfold snapChildPaths
  simp only [List.mem_map, List.mem_filter, decide_eq_true_iff]
  constructor
  · rintro ⟨dd, ⟨hmem, htyp⟩, hpath⟩
    exact ⟨dd, hmem, htyp, hpath⟩
  · rintro ⟨dd, hmem, htyp, hpath⟩
    exact ⟨dd, ⟨hmem, htyp⟩, hpath⟩

theorem removeSnapsLoop_remaining :
    ∀ (children : List DNode) (remaining acc : List Str),
      (removeSnapsLoop remaining acc children).2
        = remaining.filter (fun k => decide (k ∉ snapChildPaths children)) := by
  intro children
  induction children with
  | nil =>
      intro remaining acc
      simp [removeSnapsLoop, snapChildPaths]
  | cons dd rest ih =>
      intro remaining acc
      by_cases hcond : dd.typ = snapTypeStr ∧ dd.path ∈ remaining
      · rw [show removeSnapsLoop remaining acc (dd :: rest)
            = removeSnapsLoop (remaining.filter (fun k => decide (¬ k = dd.path)))
                (dd.path :: acc) rest from by
          simp [removeSnapsLoop, if_pos hcond]]
        rw [ih]
        rw [List.filter_filter]
        have hscp : snapChildPaths (dd :: rest) = dd.path :: snapChildPaths rest := by
          simp [snapChildPaths, List.filter_cons, hcond.1]
        rw [hscp]
        apply List.filter_congr
        intro k _
        rw [← Bool.decide_and, decide_eq_decide]
        simp only [List.mem_cons]
        tauto
      · rw [show removeSnapsLoop remaining acc (dd :: rest)
            = removeSnapsLoop remaining acc rest from by
          simp [removeSnapsLoop, if_neg hcond]]
        rw [ih]
        by_cases htyp : dd.typ = snapTypeStr
        · have hnotin : dd.path ∉ remaining := fun hin => hcond ⟨htyp, hin⟩
          have hscp : snapChildPaths (dd :: rest) = dd.path :: snapChildPaths rest := by
            simp [snapChildPaths, List.filter_cons, htyp]
          rw [hscp]
          apply List.filter_congr
          intro k hk
          have hne : k ≠ dd.path := fun he => hnotin (he ▸ hk)
          rw [decide_eq_decide]
          simp only [List.mem_cons]
          tauto
        · have hscp : snapChildPaths (dd :: rest) = snapChildPaths rest := by
            simp [snapChildPaths, List.filter_cons, htyp]
          rw [hscp]

theorem removeSnapsLoop_acc_sub :
    ∀ (children : List DNode) (remaining acc : List Str) (p : Str),
      p ∈ acc → p ∈ (removeSnapsLoop remaining acc children).1 := by
  intro children
  induction children with
  | nil =>
      intro remaining acc p hp
      simp [removeSnapsLoop, hp]
  | cons dd rest ih =>
      intro remaining acc p hp
      by_cases hcond : dd.typ = snapTypeStr ∧ dd.path ∈ remaining
      · rw [show removeSnapsLoop remaining acc (dd :: rest)
            = removeSnapsLoop (remaining.filter (fun k => decide (¬ k = dd.path)))
                (dd.path :: acc) rest from by
          simp [removeSnapsLoop, if_pos hcond]]
        exact ih _ _ p (List.mem_cons_of_mem _ hp)
      · rw [show removeSnapsLoop remaining acc (dd :: rest)
            = removeSnapsLoop remaining acc rest from by
          simp [removeSnapsLoop, if_neg hcond]]
        exact ih _ _ p hp

theorem removeSnapsLoop_destroyed :
    ∀ (children : List DNode) (remaining acc : List Str) (p : Str),
      p ∈ (removeSnapsLoop remaining acc children).1 →
      p ∈ acc ∨ (p ∈ remaining ∧ ∃ dd ∈ children, dd.typ = snapTypeStr ∧ dd.path = p) := by
  intro children
  induction children with
  | nil =>
      intro remaining acc p hp
      simp only [removeSnapsLoop, List.mem_reverse] at hp
      exact Or.inl hp
  | cons dd rest ih =>
      intro remaining acc p hp
      by_cases hcond : dd.typ = snapTypeStr ∧ dd.path ∈ remaining
      · rw [show removeSnapsLoop remaining acc (dd :: rest)
            = removeSnapsLoop (remaining.filter (fun k => decide (¬ k = dd.path)))
                (dd.path :: acc) rest from by
          simp [removeSnapsLoop, if_pos hcond]] at hp
        rcases ih _ _ p hp with hin | ⟨hrem, dd', hdd', htyp', hpath'⟩
        · rcases List.mem_cons.1 hin with he | ha
          · subst he
            exact Or.inr ⟨hcond.2, dd, List.mem_cons_self dd rest, hcond.1, rfl⟩
          · exact Or.inl ha
        · refine Or.inr ⟨?_, dd', List.mem_cons_of_mem dd hdd', htyp', hpath'⟩
          exact (List.mem_filter.1 hrem).1
      · rw [show removeSnapsLoop remaining acc (dd :: rest)
            = removeSnapsLoop remaining acc rest from by
          simp [removeSnapsLoop, if_neg hcond]] at hp
        rcases ih _ _ p hp with hin | ⟨hrem, dd', hdd', htyp', hpath'⟩
        · exact Or.inl hin
        · exact Or.inr ⟨hrem, dd', List.mem_cons_of_mem dd hdd', htyp', hpath'⟩

theorem removeSnapsLoop_complete :
    ∀ (children : List DNode) (remaining acc : List Str) (p : Str),
      p ∈ remaining → p ∈ snapChildPaths children →
      p ∈ (removeSnapsLoop remaining acc children).1 := by
  intro children
  induction children with
  | nil =>
      intro remaining acc p _ hscp
      simp [snapChildPaths] at hscp
  | cons dd rest ih =>
      intro remaining acc p hrem hscp
      by_cases hcond : dd.typ = snapTypeStr ∧ dd.path ∈ remaining
      · rw [show removeSnapsLoop remaining acc (dd :: rest)
            = removeSnapsLoop (remaining.filter (fun k => decide (¬ k = dd.path)))
                (dd.path :: acc) rest from by
          simp [removeSnapsLoop, if_pos hcond]]
        by_cases hpe : p = dd.path
        · subst hpe
          exact removeSnapsLoop_acc_sub rest _ _ dd.path (List.mem_cons_self dd.path acc)
        · apply ih _ _ p
          · exact List.mem_filter.2 ⟨hrem, by simpa using hpe⟩
          · rcases mem_snapChildPaths.1 hscp with ⟨dd', hdd', htyp', hpath'⟩
            rcases List.mem_cons.1 hdd' with he | hm
            · subst he; exact absurd hpath'.symm hpe
            · exact mem_snapChildPaths.2 ⟨dd', hm, htyp', hpath'⟩
      · rw [show removeSnapsLoop remaining acc (dd :: rest)
            = removeSnapsLoop remaining acc rest from by
          simp [removeSnapsLoop, if_neg hcond]]
        apply ih _ _ p hrem
        rcases mem_snapChildPaths.1 hscp with ⟨dd', hdd', htyp', hpath'⟩
        rcases List.mem_cons.1 hdd' with he | hm
        · subst he
          exact absurd ⟨htyp', hpath' ▸ hrem⟩ hcond
        · exact mem_snapChildPaths.2 ⟨dd', hm, htyp', hpath'⟩

theorem mem_insertKey {ks : List Str} {k k' : Str} :
    k ∈ insertKey ks k' ↔ k = k' ∨ k ∈ ks := by
  unfold insertKey
  split
  · next hin =>
      constructor
      · exact Or.inr
      · rintro (he | hk)
        · subst he; exact hin
        · exact hk
  · exact List.mem_cons

theorem mem_req_fold :
    ∀ (snaps : List snapMetadata) (ks : List Str) (k : Str),
      k ∈ snaps.foldl (fun ks m => insertKey ks (snapPath m)) ks
        ↔ k ∈ ks ∨ ∃ m ∈ snaps, snapPath m = k := by
  intro snaps
  induction snaps with
  | nil => intro ks k; simp
  | cons m rest ih =>
      intro ks k
      simp only [List.foldl_cons]
      rw [ih]
      rw [mem_insertKey]
      simp only [List.mem_cons]
      constructor
      · rintro ((he | hk) | ⟨m', hm', hp⟩)
        · exact Or.inr ⟨m, Or.inl rfl, he.symm⟩
        · exact Or.inl hk
        · exact Or.inr ⟨m', Or.inr hm', hp⟩
      · rintro (hk | ⟨m', (he | hm'), hp⟩)
        · exact Or.inl (Or.inr hk)
        · subst he; exact Or.inl (Or.inl hp.symm)
        · exact Or.inr ⟨m', hm', hp⟩

theorem removeSnapshots_error_iff (children : List DNode) (snaps : List snapMetadata) :
    (removeSnapshots children snaps).2 = true
      ↔ ∃ m ∈ snaps, snapPath m ∉ snapChildPaths children := by
  unfold removeSnapshots
  simp only [decide_eq_true_iff]
  rw [removeSnapsLoop_remaining]
  constructor
  · intro h
    rcases List.exists_mem_of_ne_nil _ h with ⟨k, hk⟩
    have hk' := List.mem_filter.1 hk
    rcases (mem_req_fold snaps [] k).1 hk'.1 with hk0 | ⟨m, hm, hp⟩
    · cases hk0
    · exact ⟨m, hm, hp ▸ of_decide_eq_true hk'.2⟩
  · rintro ⟨m, hm, hnot⟩ hnil
    have hreq : snapPath m ∈ snaps.foldl (fun ks m => insertKey ks (snapPath m)) [] :=
      (mem_req_fold snaps [] (snapPath m)).2 (Or.inr ⟨m, hm, rfl⟩)
    have : snapPath m ∈ List.filter
        (fun k => decide (k ∉ snapChildPaths children))
        (snaps.foldl (fun ks m => insertKey ks (snapPath m)) []) :=
      List.mem_filter.2 ⟨hreq, decide_eq_true hnot⟩
    rw [hnil] at this
    cases this

theorem removeSnapshots_frame (children : List DNode) (snaps : List snapMetadata)
    (p : Str) (hp : p ∈ (removeSnapshots children snaps).1) :
    (∃ m ∈ snaps, snapPath m = p)
      ∧ ∃ dd ∈ children, dd.typ = snapTypeStr ∧ dd.path = p := by
  unfold removeSnapshots at hp
  rcases removeSnapsLoop_destroyed children _ [] p hp with h0 | ⟨hreq, hw⟩
  · cases h0
  · rcases (mem_req_fold snaps [] p).1 hreq with h0 | hm
    · cases h0
    · exact ⟨hm, hw⟩

theorem removeSnapshots_complete (children : List DNode) (snaps : List snapMetadata)
    (m : snapMetadata) (hm : m ∈ snaps)
    (hin : snapPath m ∈ snapChildPaths children) :
    snapPath m ∈ (removeSnapshots children snaps).1 := by
  unfold removeSnapshots
  apply removeSnapsLoop_complete children _ [] _ _ hin
  exact (mem_req_fold snaps [] (snapPath m)).2 (Or.inr ⟨m, hm, rfl⟩)

/-! ### Fractional-second names -/

theorem dvFrom_lt : ∀ (ds : List Char) (a : Nat), (∀ c ∈ ds, isDig c = true) →
    dvFrom a ds < (a + 1) * 10 ^ ds.length := by
  intro ds
  induction ds with
  | nil =>
      intro a _
      have hz : dvFrom a [] = a := rfl
      rw [hz]
      simp
  | cons c cs ih =>
      intro a hd
      have hc : isDig c = true := hd c (by simp)
      have hcv : charVal c ≤ 9 := by
        rcases isDig_iff.1 hc with ⟨h1, h2⟩
        simp only [charVal]
        omega
      have hstep : dvFrom a (c :: cs) = dvFrom (10 * a + charVal c) cs := rfl
      rw [hstep, List.length_cons]
      have h2 := ih (10 * a + charVal c) (fun x hx => hd x (by simp [hx]))
      have h3 : (10 * a + charVal c + 1) * 10 ^ cs.length
          ≤ (a + 1) * 10 ^ (cs.length + 1) := by
        rw [pow_succ]
        have hle : 10 * a + charVal c + 1 ≤ (a + 1) * 10 := by omega
        calc (10 * a + charVal c + 1) * 10 ^ cs.length
            ≤ ((a + 1) * 10) * 10 ^ cs.length := Nat.mul_le_mul_right _ hle
          _ = (a + 1) * (10 ^ cs.length * 10) := by ring
      omega

theorem dropWhile_digits : ∀ (ds cs : List Char), (∀ c ∈ ds, isDig c = true) →
    (ds ++ cs).dropWhile isDig = cs.dropWhile isDig := by
  intro ds
  induction ds with
  | nil => intro cs _; rfl
  | cons c cs' ih =>
      intro cs hd
      have hc : isDig c = true := hd c (by simp)
      simp only [List.cons_append, List.dropWhile_cons, hc, if_true]
      exact ih cs (fun x hx => hd x (by simp [hx]))

theorem takeWhile_digits : ∀ (ds cs : List Char), (∀ c ∈ ds, isDig c = true) →
    (∀ c cs', cs = c :: cs' → isDig c = false) →
    (ds ++ cs).takeWhile isDig = ds := by
  intro ds
  induction ds with
  | nil =>
      intro cs _ hcs
      cases cs with
      | nil => rfl
      | cons c cs' =>
          simp only [List.nil_append, List.takeWhile_cons, hcs c cs' rfl,
            Bool.false_eq_true, if_false]
  | cons c cs' ih =>
      intro cs hd hcs
      have hc : isDig c = true := hd c (by simp)
      simp only [List.cons_append, List.takeWhile_cons, hc, if_true]
      rw [ih cs (fun x hx => hd x (by simp [hx])) hcs]

theorem zonePart_head_not_dig (t : GoTime) :
    ∀ c cs', zonePart t = c :: cs' → isDig c = false := by
  intro c cs' heq
  unfold zonePart at heq
  split at heq
  · rw [List.cons.injEq] at heq
    rw [← heq.1]
    rfl
  · split at heq <;>
      (rw [List.cons_append, List.cons.injEq] at heq; rw [← heq.1]; rfl)

theorem dropWhile_zone (t : GoTime) : (zonePart t).dropWhile isDig = zonePart t := by
  obtain ⟨c, cs, heq, _, _⟩ := zonePart_head_ne t
  rw [heq, List.dropWhile_cons, zonePart_head_not_dig t c cs heq]
  simp

theorem matchFracOpt_dot (d : Char) (rest : List Char) :
    matchFracOpt ('.' :: d :: rest)
      = if isDig d then (d :: rest).dropWhile isDig else '.' :: d :: rest := rfl

theorem scanFrac_dot (d : Char) (rest : List Char) :
    scanFrac ('.' :: d :: rest)
      = (if (('.' : Char) = '.' ∨ ('.' : Char) = ',') ∧ isDig d then
          (if dvFrom 0 ((d :: rest).takeWhile isDig) ≥ 1000000000 then
            (FracRes.rangeErr, (d :: rest).dropWhile isDig)
          else
            (FracRes.ok (dvFrom 0 ((d :: rest).takeWhile isDig)
                * 10 ^ (9 - ((d :: rest).takeWhile isDig).length)),
              (d :: rest).dropWhile isDig))
        else (FracRes.nofrac, '.' :: d :: rest)) := rfl

theorem scanFrac_frac (t : GoTime) (fds : List Char) (hne : fds ≠ [])
    (hdig : ∀ c ∈ fds, isDig c = true) (hlen : fds.length ≤ 9) :
    scanFrac ('.' :: (fds ++ zonePart t))
      = (FracRes.ok (dvFrom 0 fds * 10 ^ (9 - fds.length)), zonePart t) := by
  cases fds with
  | nil => exact absurd rfl hne
  | cons d fds' =>
      have hd : isDig d = true := hdig d (by simp)
      have htake : ((d :: fds') ++ zonePart t).takeWhile isDig = d :: fds' :=
        takeWhile_digits (d :: fds') (zonePart t) hdig (zonePart_head_not_dig t)
      have hdrop : ((d :: fds') ++ zonePart t).dropWhile isDig = zonePart t := by
        rw [dropWhile_digits (d :: fds') (zonePart t) hdig, dropWhile_zone]
      have hval : dvFrom 0 (d :: fds') < 1000000000 := by
        have h1 := dvFrom_lt (d :: fds') 0 hdig
        have hpow : 10 ^ (d :: fds').length ≤ 10 ^ 9 :=
          Nat.pow_le_pow_right (by omega) (by simpa using hlen)
        have h9 : (10 : Nat) ^ 9 ≤ 1000000000 := by norm_num
        omega
      rw [show ('.' :: ((d :: fds') ++ zonePart t))
          = '.' :: d :: (fds' ++ zonePart t) from rfl]
      rw [scanFrac_dot, if_pos (And.intro (Or.inl rfl) hd)]
      rw [show (d :: (fds' ++ zonePart t)) = (d :: fds') ++ zonePart t from rfl]
      rw [htake, hdrop]
      rw [if_neg (by omega)]

theorem goParse_frac (t : GoTime) (fds : List Char)
    (hv : ValidTS t) (hne : fds ≠ [])
    (hdig : ∀ c ∈ fds, isDig c = true) (hlen : fds.length ≤ 9) :
    goParseRFC3339 (dtPart t ++ '.' :: (fds ++ zonePart t))
      = some { t with nsec := dvFrom 0 fds * 10 ^ (9 - fds.length) } := by
  obtain ⟨hy, hmo1, hmo, hd1, hd, hh, hmi, hs, hoff⟩ := hv
  have hd100 : t.day < 100 := by
    have := goDaysIn_le t.month t.year
    omega
  unfold goParseRFC3339
  rw [parseDT_format _ _ hy (by omega) hd100 (by omega) (by omega) (by omega)]
  simp only [Option.bind_eq_bind, Option.some_bind]
  rw [scanFrac_frac t fds hne hdig hlen]
  simp only [Option.some_bind]
  rw [parseZone_format _ hoff]
  simp only [Option.some_bind]
  rw [if_pos]
  · rfl
  · exact ⟨by simp, hmo1, hmo, hd1, hd, hh, hmi, hs⟩

theorem matchTS_frac (t : GoTime) (fds : List Char)
    (hy : t.year < 10000) (hmo : t.month < 100) (hd : t.day < 100)
    (hh : t.hour < 100) (hmi : t.minute < 100) (hs : t.second < 100)
    (hoff : t.offMin.natAbs < 6000) (hne : fds ≠ [])
    (hdig : ∀ c ∈ fds, isDig c = true) :
    matchTS (dtPart t ++ '.' :: (fds ++ zonePart t)) = true := by
  unfold matchTS
  rw [matchDT_format t _ hy hmo hd hh hmi hs]
  cases fds with
  | nil => exact absurd rfl hne
  | cons d fds' =>
      have hdd : isDig d = true := hdig d (by simp)
      have hdrop : ((d :: fds') ++ zonePart t).dropWhile isDig = zonePart t := by
        rw [dropWhile_digits (d :: fds') (zonePart t) hdig, dropWhile_zone]
      show matchTSEnd (matchFracOpt ('.' :: d :: (fds' ++ zonePart t))) = true
      rw [matchFracOpt_dot, if_pos hdd]
      rw [show (d :: (fds' ++ zonePart t)) = (d :: fds') ++ zonePart t from rfl]
      rw [hdrop]
      exact matchTSEnd_zone t hoff

theorem parseSnapName_frac (ds pre lab : Str) (t : GoTime) (fds : List Char)
    (hpre : pre ≠ []) (hpreA : '@' ∉ pre)
    (hlabne : lab ≠ []) (hlabU : '_' ∉ lab) (hlabA : '@' ∉ lab)
    (hv : ValidTS t) (hne : fds ≠ []) (hdig : ∀ c ∈ fds, isDig c = true)
    (hlen : fds.length ≤ 9) :
    parseSnapName pre (ds ++ '@' :: (pre ++ '_' :: (lab ++ '_' ::
        (dtPart t ++ '.' :: (fds ++ zonePart t)))))
      = Except.ok (some ⟨ds, pre, lab,
          { t with nsec := dvFrom 0 fds * 10 ^ (9 - fds.length) }⟩) := by
  obtain ⟨hy, hmo1, hmo, hd1, hd, hh, hmi, hs, hoff⟩ := hv
  have hd100 : t.day < 100 := by
    have := goDaysIn_le t.month t.year
    omega
  have hTus : '_' ∉ (dtPart t ++ '.' :: (fds ++ zonePart t)) := by
    simp only [List.mem_append, List.mem_cons]
    rintro (h | h | h | h)
    · exact (dtPart_chars h).2 rfl
    · exact absurd h (by decide)
    · exact (isDig_ne_at (hdig _ h)).2 rfl
    · exact (zonePart_chars h).2 rfl
  have hTat : '@' ∉ (dtPart t ++ '.' :: (fds ++ zonePart t)) := by
    simp only [List.mem_append, List.mem_cons]
    rintro (h | h | h | h)
    · exact (dtPart_chars h).1 rfl
    · exact absurd h (by decide)
    · exact (isDig_ne_at (hdig _ h)).1 rfl
    · exact (zonePart_chars h).1 rfl
  have hTS : matchTS (dtPart t ++ '.' :: (fds ++ zonePart t)) = true :=
    matchTS_frac t fds hy (by omega) hd100 (by omega) (by omega) (by omega)
      hoff hne hdig
  unfold parseSnapName
  rw [findSubmatch_encoded ds pre lab _ hpreA hlabA hTat
    (suffixCaptures_encoded pre lab _ hpre hlabne hlabU hTus hTS)]
  simp [goParse_frac t fds ⟨hy, hmo1, hmo, hd1, hd, hh, hmi, hs, hoff⟩ hne hdig hlen]

/-! ### Error propagation through the enforcement loop -/

theorem collectSnaps_error (expPfx label : Str) :
    ∀ children : List DNode,
      (∃ dd ∈ children, dd.typ = snapTypeStr
        ∧ ∃ e, parseSnapName expPfx dd.path = Except.error e) →
      ∃ e', collectSnaps expPfx label children = Except.error e' := by
  intro children
  induction children with
  | nil => rintro ⟨dd, hdd, _⟩; cases hdd
  | cons dd rest ih =>
      rintro ⟨dd', hdd', htyp', e, hpe⟩
      by_cases htyp : dd.typ = snapTypeStr
      · cases hp : parseSnapName expPfx dd.path with
        | error e0 =>
            refine ⟨e0, ?_⟩
            simp only [collectSnaps, if_pos htyp, hp]
        | ok mo =>
            have hwit : ∃ dd ∈ rest, dd.typ = snapTypeStr
                ∧ ∃ e, parseSnapName expPfx dd.path = Except.error e := by
              rcases List.mem_cons.1 hdd' with he | hm
              · subst he
                rw [hp] at hpe
                cases hpe
              · exact ⟨dd', hm, htyp', e, hpe⟩
            rcases ih hwit with ⟨e', he'⟩
            cases mo with
            | none =>
                refine ⟨e', ?_⟩
                simp only [collectSnaps, if_pos htyp, hp]
                exact he'
            | some m =>
                by_cases hlab : m.label = label
                · refine ⟨e', ?_⟩
                  simp only [collectSnaps, if_pos htyp, hp, if_pos hlab, he']
                · refine ⟨e', ?_⟩
                  simp only [collectSnaps, if_pos htyp, hp, if_neg hlab]
                  exact he'
      · rcases List.mem_cons.1 hdd' with he | hm
        · subst he; exact absurd htyp' htyp
        · rcases ih ⟨dd', hm, htyp', e, hpe⟩ with ⟨e', he'⟩
          refine ⟨e', ?_⟩
          simp only [collectSnaps, if_neg htyp]
          exact he'

theorem getSnapshots_error (expPfx label : Str) (children : List DNode)
    (h : ∃ dd ∈ children, dd.typ = snapTypeStr
      ∧ ∃ e, parseSnapName expPfx dd.path = Except.error e) :
    ∃ e', getSnapshots expPfx children label = Except.error e' := by
  rcases collectSnaps_error expPfx label children h with ⟨e', he'⟩
  refine ⟨e', ?_⟩
  unfold getSnapshots
  rw [he']

theorem manageSnapshots_abort_first (ac ad : Bool) (expPfx dsPath : Str)
    (children : List DNode) (s : seriesConfig) (rest : List seriesConfig)
    (clock : Nat → GoTime) (e : Str)
    (hstep : (manageOneSeries ac ad expPfx dsPath children s (clock 0)).err = some e) :
    manageSnapshots ac ad expPfx dsPath children (s :: rest) clock
      = ([manageOneSeries ac ad expPfx dsPath children s (clock 0)], true) := by
  unfold manageSnapshots manageSnapshotsAux
  simp [hstep]

theorem manageSnapshots_nil (ac ad : Bool) (expPfx dsPath : Str)
    (children : List DNode) (clock : Nat → GoTime) :
    manageSnapshots ac ad expPfx dsPath children [] clock = ([], false) := rfl

theorem mainEnforce_no_pairs (ac ad : Bool) (expPfx : Str) (conf : configFile)
    (targets : List (Str × List DNode)) (clock : Nat → GoTime) :
    evaluatedPairs (mainEnforce ac ad expPfx conf targets clock) = [] := by
  unfold mainEnforce
  induction targets with
  | nil => rfl
  | cons tg rest ih =>
      obtain ⟨p, ch⟩ := tg
      have hms : manageSnapshots ac ad expPfx p ch [] clock = ([], false) := rfl
      simp only [mainEnforceAux, hms]
      simp only [evaluatedPairs, List.flatMap_cons, List.map_nil, List.nil_append]
      exact ih

/-! ## Claim theorems -/

/-- C1: the claim states that the enforcement loop invokes the
create/destroy decision logic for every pair in the cross-product of
target datasets and configured series.  The code does not: `Tool.Main`
passes the literal empty slice `[]seriesConfig{}` to `manageSnapshots`
instead of the loaded `conf.Series`, so no (dataset, series) pair is
ever evaluated, whatever the configuration contains. -/
theorem C1_enforcement_loop_evaluates_no_pairs (ac ad : Bool) (expPfx : Str)
    (conf : configFile) (targets : List (Str × List DNode)) (clock : Nat → GoTime) :
    evaluatedPairs (mainEnforce ac ad expPfx conf targets clock) = [] :=
  mainEnforce_no_pairs ac ad expPfx conf targets clock

/-- C2 counterexample: the round-trip law fails as stated for an
identity whose prefix is empty (the claim's validity conditions
constrain only the label and the timestamp).  Encoding
`{dataset := "ds", prefix := "", label := "daily", ts}` and decoding
with the same expected prefix yields "no match" (`nil, nil`), not the
identity: the regexp's `(.+)` prefix group cannot match the empty
prefix. -/
theorem C2_roundtrip_counterexample :
    parseSnapName (str "")
        (snapPath ⟨str "ds", str "", str "daily", ⟨2010, 1, 2, 3, 4, 5, 0, 0⟩⟩)
      = Except.ok none
    ∧ (Except.ok none : Except Str (Option snapMetadata))
        ≠ Except.ok (some ⟨str "ds", str "", str "daily", ⟨2010, 1, 2, 3, 4, 5, 0, 0⟩⟩) := by
  constructor
  · decide
  · decide

/-- C2 (amended): for every SnapshotIdentity whose label is non-empty
and free of `'_'` and `'@'`, whose prefix is non-empty and free of
`'@'`, and whose timestamp is at whole-second resolution with fields in
the representable ranges (`ValidTS`), decoding the encoded name with
the same expected prefix returns an identity equal to the original in
all four fields. -/
theorem C2_roundtrip (m : snapMetadata)
    (hpre : m.pfx ≠ []) (hpreA : '@' ∉ m.pfx)
    (hlabne : m.label ≠ []) (hlabU : '_' ∉ m.label) (hlabA : '@' ∉ m.label)
    (hv : ValidTS m.ts) (hns : m.ts.nsec = 0) :
    parseSnapName m.pfx (snapPath m) = Except.ok (some m) :=
  parseSnapName_encode m hpre hpreA hlabne hlabU hlabA hv hns

/-- C2 witness: the round trip at a concrete identity. -/
theorem C2_roundtrip_witness :
    parseSnapName (str "zfs-auto-snap")
        (snapPath ⟨str "tank/ds", str "zfs-auto-snap", str "daily",
          ⟨2010, 1, 2, 3, 4, 5, 0, 0⟩⟩)
      = Except.ok (some ⟨str "tank/ds", str "zfs-auto-snap", str "daily",
          ⟨2010, 1, 2, 3, 4, 5, 0, 0⟩⟩) :=
  C2_roundtrip ⟨str "tank/ds", str "zfs-auto-snap", str "daily",
      ⟨2010, 1, 2, 3, 4, 5, 0, 0⟩⟩
    (by decide) (by decide) (by decide) (by decide) (by decide) (by decide) (by decide)

/-- C4: a new snapshot is decided if and only if there are no existing
snapshots of the (dataset, label) pair, or the elapsed time from the
most recent snapshot's timestamp to now is at least the series
interval; nothing else (in particular no wall-clock boundary) enters
the decision. -/
theorem C4_staleness_gate (ac ad : Bool) (expPfx dsPath : Str)
    (children : List DNode) (s : seriesConfig) (now : GoTime)
    (snaps : List snapMetadata)
    (hgs : getSnapshots expPfx children s.Label = Except.ok snaps) :
    (manageOneSeries ac ad expPfx dsPath children s now).createFired = true
      ↔ (snaps = []
          ∨ ∃ m ∈ snaps, (∀ m' ∈ snaps, tsKey m' ≤ tsKey m)
              ∧ s.Interval ≤ goSub now m.ts) := by
  rw [manageOneSeries_createFired ac ad expPfx dsPath children s now snaps hgs]
  have hsorted := getSnapshots_sorted hgs
  cases snaps with
  | nil => simp [evalCond]
  | cons m0 rest =>
      have hmax := pairwise_head_max hsorted
      simp only [evalCond, decide_eq_true_iff]
      constructor
      · intro h
        exact Or.inr ⟨m0, List.mem_cons_self m0 rest, hmax, h⟩
      · rintro (h | ⟨m', hm', hmax', hint⟩)
        · cases h
        · have h1 : tsKey m' ≤ tsKey m0 := hmax m' hm'
          have h2 : tsKey m0 ≤ tsKey m' := hmax' m0 (List.mem_cons_self m0 rest)
          have : goSub now m0.ts = goSub now m'.ts := by
            unfold goSub tsKey at *
            omega
          omega

/-- C4 witness: three hourly snapshots, the newest 30 minutes old and a
one-hour interval, so no new snapshot is decided; the characterisation
holds at this input. -/
theorem C4_staleness_gate_witness :
    (manageOneSeries true true (str "zfs-auto-snap") (str "tank/a")
        [⟨str "tank/a@zfs-auto-snap_hourly_2020-01-01T01:00:00Z", str "snapshot"⟩,
         ⟨str "tank/a@zfs-auto-snap_hourly_2020-01-01T00:00:00Z", str "snapshot"⟩,
         ⟨str "tank/a@zfs-auto-snap_hourly_2020-01-01T02:00:00Z", str "snapshot"⟩]
        ⟨str "hourly", 3600000000000, 3⟩ ⟨2020, 1, 1, 2, 30, 0, 0, 0⟩).createFired = true
      ↔ ([⟨str "tank/a", str "zfs-auto-snap", str "hourly", ⟨2020, 1, 1, 2, 0, 0, 0, 0⟩⟩,
          ⟨str "tank/a", str "zfs-auto-snap", str "hourly", ⟨2020, 1, 1, 1, 0, 0, 0, 0⟩⟩,
          ⟨str "tank/a", str "zfs-auto-snap", str "hourly", ⟨2020, 1, 1, 0, 0, 0, 0, 0⟩⟩]
            = ([] : List snapMetadata)
        ∨ ∃ m ∈ [⟨str "tank/a", str "zfs-auto-snap", str "hourly", ⟨2020, 1, 1, 2, 0, 0, 0, 0⟩⟩,
            ⟨str "tank/a", str "zfs-auto-snap", str "hourly", ⟨2020, 1, 1, 1, 0, 0, 0, 0⟩⟩,
            ⟨str "tank/a", str "zfs-auto-snap", str "hourly", ⟨2020, 1, 1, 0, 0, 0, 0, 0⟩⟩],
            (∀ m' ∈ [⟨str "tank/a", str "zfs-auto-snap", str "hourly", ⟨2020, 1, 1, 2, 0, 0, 0, 0⟩⟩,
                ⟨str "tank/a", str "zfs-auto-snap", str "hourly", ⟨2020, 1, 1, 1, 0, 0, 0, 0⟩⟩,
                ⟨str "tank/a", str "zfs-auto-snap", str "hourly", ⟨2020, 1, 1, 0, 0, 0, 0, 0⟩⟩],
              tsKey m' ≤ tsKey m)
              ∧ (3600000000000 : Int) ≤ goSub ⟨2020, 1, 1, 2, 30, 0, 0, 0⟩ m.ts) :=
  C4_staleness_gate true true (str "zfs-auto-snap") (str "tank/a")
    [⟨str "tank/a@zfs-auto-snap_hourly_2020-01-01T01:00:00Z", str "snapshot"⟩,
     ⟨str "tank/a@zfs-auto-snap_hourly_2020-01-01T00:00:00Z", str "snapshot"⟩,
     ⟨str "tank/a@zfs-auto-snap_hourly_2020-01-01T02:00:00Z", str "snapshot"⟩]
    ⟨str "hourly", 3600000000000, 3⟩ ⟨2020, 1, 1, 2, 30, 0, 0, 0⟩
    [⟨str "tank/a", str "zfs-auto-snap", str "hourly", ⟨2020, 1, 1, 2, 0, 0, 0, 0⟩⟩,
     ⟨str "tank/a", str "zfs-auto-snap", str "hourly", ⟨2020, 1, 1, 1, 0, 0, 0, 0⟩⟩,
     ⟨str "tank/a", str "zfs-auto-snap", str "hourly", ⟨2020, 1, 1, 0, 0, 0, 0, 0⟩⟩]
    (by decide)

/-- C5: with no new snapshot decided and `keep = k` against `n > k`
existing snapshots, exactly the `n - k` oldest snapshots (the tail of
the most-recent-first order) are marked for destruction in a single
step, and the `k` most recent are never marked. -/
theorem C5_trim_correctness (ac ad : Bool) (expPfx dsPath : Str)
    (children : List DNode) (s : seriesConfig) (now : GoTime)
    (snaps : List snapMetadata)
    (hgs : getSnapshots expPfx children s.Label = Except.ok snaps)
    (hnonew : (manageOneSeries ac ad expPfx dsPath children s now).createFired = false)
    (hlen : s.Keep < snaps.length) :
    (manageOneSeries ac ad expPfx dsPath children s now).marked = snaps.drop s.Keep
    ∧ (manageOneSeries ac ad expPfx dsPath children s now).marked.length
        = snaps.length - s.Keep
    ∧ (∀ a ∈ snaps.take s.Keep,
        ∀ b ∈ (manageOneSeries ac ad expPfx dsPath children s now).marked,
          tsKey b ≤ tsKey a)
    ∧ ((snaps.map tsKey).Nodup →
        ∀ a ∈ snaps.take s.Keep,
          a ∉ (manageOneSeries ac ad expPfx dsPath children s now).marked) := by
  have hcond : evalCond snaps s now = false := by
    rw [manageOneSeries_createFired ac ad expPfx dsPath children s now snaps hgs]
      at hnonew
    exact hnonew
  have hmk : (manageOneSeries ac ad expPfx dsPath children s now).marked
      = snaps.drop s.Keep := by
    rw [manageOneSeries_marked ac ad expPfx dsPath children s now snaps hgs]
    unfold evalMarked evalSnaps1
    rw [hcond]
    simp only [Bool.false_and, Bool.false_eq_true, if_false]
    rw [if_pos hlen]
  have hsorted := getSnapshots_sorted hgs
  have hcross : ∀ a ∈ snaps.take s.Keep, ∀ b ∈ snaps.drop s.Keep, tsKey b ≤ tsKey a := by
    have hperm : snaps.take s.Keep ++ snaps.drop s.Keep = snaps :=
      List.take_append_drop s.Keep snaps
    rw [← hperm] at hsorted
    exact fun a ha b hb => (List.pairwise_append.1 hsorted).2.2 a ha b hb
  refine ⟨hmk, ?_, ?_, ?_⟩
  · rw [hmk, List.length_drop]
  · intro a ha b hb
    rw [hmk] at hb
    exact hcross a ha b hb
  · intro hnd a ha hmem
    rw [hmk] at hmem
    have hsplit : snaps.map tsKey
        = (snaps.take s.Keep).map tsKey ++ (snaps.drop s.Keep).map tsKey := by
      rw [← List.map_append, List.take_append_drop]
    rw [hsplit] at hnd
    rcases List.nodup_append.1 hnd with ⟨_, _, hdisj⟩
    exact hdisj (List.mem_map_of_mem tsKey ha) (List.mem_map_of_mem tsKey hmem)

/-- C5 witness: three snapshots, `keep = 1`, interval not elapsed: the
two oldest are marked, the newest is untouched. -/
theorem C5_trim_correctness_witness :
    (manageOneSeries true true (str "zfs-auto-snap") (str "tank/a")
        [⟨str "tank/a@zfs-auto-snap_hourly_2020-01-01T01:00:00Z", str "snapshot"⟩,
         ⟨str "tank/a@zfs-auto-snap_hourly_2020-01-01T00:00:00Z", str "snapshot"⟩,
         ⟨str "tank/a@zfs-auto-snap_hourly_2020-01-01T02:00:00Z", str "snapshot"⟩]
        ⟨str "hourly", 3600000000000, 1⟩ ⟨2020, 1, 1, 2, 30, 0, 0, 0⟩).marked
      = List.drop 1
          [⟨str "tank/a", str "zfs-auto-snap", str "hourly", ⟨2020, 1, 1, 2, 0, 0, 0, 0⟩⟩,
           ⟨str "tank/a", str "zfs-auto-snap", str "hourly", ⟨2020, 1, 1, 1, 0, 0, 0, 0⟩⟩,
           ⟨str "tank/a", str "zfs-auto-snap", str "hourly", ⟨2020, 1, 1, 0, 0, 0, 0, 0⟩⟩] :=
  (C5_trim_correctness true true (str "zfs-auto-snap") (str "tank/a")
    [⟨str "tank/a@zfs-auto-snap_hourly_2020-01-01T01:00:00Z", str "snapshot"⟩,
     ⟨str "tank/a@zfs-auto-snap_hourly_2020-01-01T00:00:00Z", str "snapshot"⟩,
     ⟨str "tank/a@zfs-auto-snap_hourly_2020-01-01T02:00:00Z", str "snapshot"⟩]
    ⟨str "hourly", 3600000000000, 1⟩ ⟨2020, 1, 1, 2, 30, 0, 0, 0⟩
    [⟨str "tank/a", str "zfs-auto-snap", str "hourly", ⟨2020, 1, 1, 2, 0, 0, 0, 0⟩⟩,
     ⟨str "tank/a", str "zfs-auto-snap", str "hourly", ⟨2020, 1, 1, 1, 0, 0, 0, 0⟩⟩,
     ⟨str "tank/a", str "zfs-auto-snap", str "hourly", ⟨2020, 1, 1, 0, 0, 0, 0, 0⟩⟩]
    (by decide) (by decide) (by decide)).1

/-- C3 counterexample: three existing hourly snapshots, `keep = 3`, the
interval elapsed, creation suppressed (`allowCreate = false`, as under
`-dry-run` or `-create=false`): the create condition fires, yet no
snapshot is marked for destruction — the code prepends the would-be
snapshot only inside `if tool.allowCreate`, so the claim's "logically
prepended even when creation is suppressed" fails. -/
theorem C3_prepend_counterexample :
    ((manageOneSeries false true (str "zfs-auto-snap") (str "tank/a")
        [⟨str "tank/a@zfs-auto-snap_hourly_2020-01-01T01:00:00Z", str "snapshot"⟩,
         ⟨str "tank/a@zfs-auto-snap_hourly_2020-01-01T00:00:00Z", str "snapshot"⟩,
         ⟨str "tank/a@zfs-auto-snap_hourly_2020-01-01T02:00:00Z", str "snapshot"⟩]
        ⟨str "hourly", 3600000000000, 3⟩ ⟨2020, 2, 1, 0, 0, 0, 0, 0⟩).createFired = true)
    ∧ (manageOneSeries false true (str "zfs-auto-snap") (str "tank/a")
        [⟨str "tank/a@zfs-auto-snap_hourly_2020-01-01T01:00:00Z", str "snapshot"⟩,
         ⟨str "tank/a@zfs-auto-snap_hourly_2020-01-01T00:00:00Z", str "snapshot"⟩,
         ⟨str "tank/a@zfs-auto-snap_hourly_2020-01-01T02:00:00Z", str "snapshot"⟩]
        ⟨str "hourly", 3600000000000, 3⟩ ⟨2020, 2, 1, 0, 0, 0, 0, 0⟩).marked = [] := by
  constructor
  · decide
  · decide

/-- C3 (amended): the would-be snapshot is prepended to the destroy
accounting only when creation is actually enabled.  With the create
condition fired and exactly `keep` existing snapshots: when
`allowCreate` is true the accounted list has `keep + 1` entries and
exactly the oldest existing snapshot is marked; when `allowCreate` is
false nothing is prepended and nothing is marked. -/
theorem C3_prepend_before_trim (ad : Bool) (expPfx dsPath : Str)
    (children : List DNode) (s : seriesConfig) (now : GoTime)
    (snaps : List snapMetadata)
    (hgs : getSnapshots expPfx children s.Label = Except.ok snaps)
    (hfired : evalCond snaps s now = true)
    (hlen : snaps.length = s.Keep) (hk : 1 ≤ s.Keep) :
    (manageOneSeries true ad expPfx dsPath children s now).marked
        = snaps.drop (s.Keep - 1)
    ∧ (manageOneSeries true ad expPfx dsPath children s now).marked.length = 1
    ∧ (∀ b ∈ (manageOneSeries true ad expPfx dsPath children s now).marked,
        ∀ a ∈ snaps, tsKey b ≤ tsKey a)
    ∧ (manageOneSeries false ad expPfx dsPath children s now).marked = [] := by
  have hmkT : (manageOneSeries true ad expPfx dsPath children s now).marked
      = snaps.drop (s.Keep - 1) := by
    rw [manageOneSeries_marked true ad expPfx dsPath children s now snaps hgs]
    unfold evalMarked evalSnaps1
    rw [hfired]
    simp only [Bool.true_and, if_true, reduceIte]
    rw [if_pos (by simp only [List.length_cons]; omega)]
    have hK : s.Keep = (s.Keep - 1) + 1 := by omega
    rw [hK, List.drop_succ_cons]
    congr 1
  have hmkF : (manageOneSeries false ad expPfx dsPath children s now).marked = [] := by
    rw [manageOneSeries_marked false ad expPfx dsPath children s now snaps hgs]
    unfold evalMarked evalSnaps1
    rw [hfired]
    simp only [Bool.true_and, Bool.and_false, Bool.false_eq_true, if_false]
    rw [if_neg (by omega)]
  have hsorted := getSnapshots_sorted hgs
  have hdlen : (snaps.drop (s.Keep - 1)).length = 1 := by
    rw [List.length_drop]
    omega
  refine ⟨hmkT, by rw [hmkT, hdlen], ?_, hmkF⟩
  intro b hb a ha
  rw [hmkT] at hb
  have hcross : ∀ x ∈ snaps.take (s.Keep - 1), ∀ y ∈ snaps.drop (s.Keep - 1),
      tsKey y ≤ tsKey x := by
    have hperm : snaps.take (s.Keep - 1) ++ snaps.drop (s.Keep - 1) = snaps :=
      List.take_append_drop (s.Keep - 1) snaps
    rw [← hperm] at hsorted
    exact fun x hx y hy => (List.pairwise_append.1 hsorted).2.2 x hx y hy
  have hc : a ∈ snaps.take (s.Keep - 1) ∨ a ∈ snaps.drop (s.Keep - 1) := by
    rw [← List.mem_append, List.take_append_drop]
    exact ha
  rcases hc with hc | hc
  · exact hcross a hc b hb
  · rcases List.length_eq_one.1 hdlen with ⟨c, hcc⟩
    rw [hcc, List.mem_singleton] at hb hc
    rw [hb, hc]

/-- C3 witness: the amended accounting at the counterexample's inputs
with creation enabled — the single oldest snapshot is marked. -/
theorem C3_prepend_before_trim_witness :
    (manageOneSeries true true (str "zfs-auto-snap") (str "tank/a")
        [⟨str "tank/a@zfs-auto-snap_hourly_2020-01-01T01:00:00Z", str "snapshot"⟩,
         ⟨str "tank/a@zfs-auto-snap_hourly_2020-01-01T00:00:00Z", str "snapshot"⟩,
         ⟨str "tank/a@zfs-auto-snap_hourly_2020-01-01T02:00:00Z", str "snapshot"⟩]
        ⟨str "hourly", 3600000000000, 3⟩ ⟨2020, 2, 1, 0, 0, 0, 0, 0⟩).marked
      = List.drop 2
          [⟨str "tank/a", str "zfs-auto-snap", str "hourly", ⟨2020, 1, 1, 2, 0, 0, 0, 0⟩⟩,
           ⟨str "tank/a", str "zfs-auto-snap", str "hourly", ⟨2020, 1, 1, 1, 0, 0, 0, 0⟩⟩,
           ⟨str "tank/a", str "zfs-auto-snap", str "hourly", ⟨2020, 1, 1, 0, 0, 0, 0, 0⟩⟩] :=
  (C3_prepend_before_trim true (str "zfs-auto-snap") (str "tank/a")
    [⟨str "tank/a@zfs-auto-snap_hourly_2020-01-01T01:00:00Z", str "snapshot"⟩,
     ⟨str "tank/a@zfs-auto-snap_hourly_2020-01-01T00:00:00Z", str "snapshot"⟩,
     ⟨str "tank/a@zfs-auto-snap_hourly_2020-01-01T02:00:00Z", str "snapshot"⟩]
    ⟨str "hourly", 3600000000000, 3⟩ ⟨2020, 2, 1, 0, 0, 0, 0, 0⟩
    [⟨str "tank/a", str "zfs-auto-snap", str "hourly", ⟨2020, 1, 1, 2, 0, 0, 0, 0⟩⟩,
     ⟨str "tank/a", str "zfs-auto-snap", str "hourly", ⟨2020, 1, 1, 1, 0, 0, 0, 0⟩⟩,
     ⟨str "tank/a", str "zfs-auto-snap", str "hourly", ⟨2020, 1, 1, 0, 0, 0, 0, 0⟩⟩]
    (by decide) (by decide) (by decide) (by decide)).1

/-- C6 counterexample: a snapshot child whose name matches the grammar
but carries month 13 produces a decode error; contrary to the claim,
the offending name is not merely excluded while processing continues —
`getSnapshots` returns the error, discarding the well-formed snapshots
of the same pair, and `manageSnapshots` stops after the first series
instead of evaluating the second. -/
theorem C6_decode_error_counterexample :
    getSnapshots (str "zfs-auto-snap")
        [⟨str "tank/a@zfs-auto-snap_hourly_2020-13-01T00:00:00Z", str "snapshot"⟩,
         ⟨str "tank/a@zfs-auto-snap_hourly_2020-01-01T01:00:00Z", str "snapshot"⟩]
        (str "hourly")
      = Except.error (str "2020-13-01T00:00:00Z")
    ∧ (manageSnapshots true true (str "zfs-auto-snap") (str "tank/a")
        [⟨str "tank/a@zfs-auto-snap_hourly_2020-13-01T00:00:00Z", str "snapshot"⟩,
         ⟨str "tank/a@zfs-auto-snap_hourly_2020-01-01T01:00:00Z", str "snapshot"⟩]
        [⟨str "hourly", 3600000000000, 3⟩, ⟨str "daily", 86400000000000, 3⟩]
        (constClock ⟨2020, 2, 1, 0, 0, 0, 0, 0⟩)).1.length = 1
    ∧ (manageSnapshots true true (str "zfs-auto-snap") (str "tank/a")
        [⟨str "tank/a@zfs-auto-snap_hourly_2020-13-01T00:00:00Z", str "snapshot"⟩,
         ⟨str "tank/a@zfs-auto-snap_hourly_2020-01-01T01:00:00Z", str "snapshot"⟩]
        [⟨str "hourly", 3600000000000, 3⟩, ⟨str "daily", 86400000000000, 3⟩]
        (constClock ⟨2020, 2, 1, 0, 0, 0, 0, 0⟩)).2 = true := by
  refine ⟨by decide, by decide, by decide⟩

/-- C6 (amended): when a snapshot child's name matches the grammar but
its timestamp payload fails to parse, the decode result is an error
distinct from the "no match" outcome, but it is not contained: the
snapshot-listing for that (dataset, label) returns the error
(discarding the pair's well-formed snapshots), and the series loop
aborts at that pair, leaving later series unevaluated. -/
theorem C6_decode_error_aborts (ac ad : Bool) (expPfx dsPath : Str)
    (children : List DNode) (s : seriesConfig) (rest : List seriesConfig)
    (clock : Nat → GoTime)
    (hbad : ∃ dd ∈ children, dd.typ = snapTypeStr
      ∧ ∃ e, parseSnapName expPfx dd.path = Except.error e) :
    (∃ dd ∈ children, dd.typ = snapTypeStr
      ∧ ∃ e, parseSnapName expPfx dd.path = Except.error e
        ∧ ∀ o : Option snapMetadata, Except.error e ≠ Except.ok o)
    ∧ (∃ e', getSnapshots expPfx children s.Label = Except.error e')
    ∧ (manageSnapshots ac ad expPfx dsPath children (s :: rest) clock).2 = true
    ∧ (manageSnapshots ac ad expPfx dsPath children (s :: rest) clock).1.length = 1 := by
  obtain ⟨e', he'⟩ := getSnapshots_error expPfx s.Label children hbad
  have hstep : (manageOneSeries ac ad expPfx dsPath children s (clock 0)).err
      = some e' := by
    rw [manageOneSeries_error ac ad expPfx dsPath children s (clock 0) e' he']
  have habort := manageSnapshots_abort_first ac ad expPfx dsPath children s rest
    clock e' hstep
  refine ⟨?_, ⟨e', he'⟩, ?_, ?_⟩
  · obtain ⟨dd, hdd, htyp, e, hpe⟩ := hbad
    exact ⟨dd, hdd, htyp, e, hpe, fun o h => by cases h⟩
  · rw [habort]
  · rw [habort]
    rfl

/-- C6 witness: the amended behaviour at the counterexample's inputs. -/
theorem C6_decode_error_aborts_witness :
    (∃ dd ∈ [(⟨str "tank/a@zfs-auto-snap_hourly_2020-13-01T00:00:00Z", str "snapshot"⟩ : DNode),
        ⟨str "tank/a@zfs-auto-snap_hourly_2020-01-01T01:00:00Z", str "snapshot"⟩],
      dd.typ = snapTypeStr
        ∧ ∃ e, parseSnapName (str "zfs-auto-snap") dd.path = Except.error e
          ∧ ∀ o : Option snapMetadata, Except.error e ≠ Except.ok o)
    ∧ (∃ e', getSnapshots (str "zfs-auto-snap")
        [⟨str "tank/a@zfs-auto-snap_hourly_2020-13-01T00:00:00Z", str "snapshot"⟩,
         ⟨str "tank/a@zfs-auto-snap_hourly_2020-01-01T01:00:00Z", str "snapshot"⟩]
        ((⟨str "hourly", 3600000000000, 3⟩ : seriesConfig)).Label = Except.error e')
    ∧ (manageSnapshots true true (str "zfs-auto-snap") (str "tank/a")
        [⟨str "tank/a@zfs-auto-snap_hourly_2020-13-01T00:00:00Z", str "snapshot"⟩,
         ⟨str "tank/a@zfs-auto-snap_hourly_2020-01-01T01:00:00Z", str "snapshot"⟩]
        [⟨str "hourly", 3600000000000, 3⟩, ⟨str "daily", 86400000000000, 3⟩]
        (constClock ⟨2020, 2, 1, 0, 0, 0, 0, 0⟩)).2 = true
    ∧ (manageSnapshots true true (str "zfs-auto-snap") (str "tank/a")
        [⟨str "tank/a@zfs-auto-snap_hourly_2020-13-01T00:00:00Z", str "snapshot"⟩,
         ⟨str "tank/a@zfs-auto-snap_hourly_2020-01-01T01:00:00Z", str "snapshot"⟩]
        [⟨str "hourly", 3600000000000, 3⟩, ⟨str "daily", 86400000000000, 3⟩]
        (constClock ⟨2020, 2, 1, 0, 0, 0, 0, 0⟩)).1.length = 1 :=
  C6_decode_error_aborts true true (str "zfs-auto-snap") (str "tank/a")
    [⟨str "tank/a@zfs-auto-snap_hourly_2020-13-01T00:00:00Z", str "snapshot"⟩,
     ⟨str "tank/a@zfs-auto-snap_hourly_2020-01-01T01:00:00Z", str "snapshot"⟩]
    ⟨str "hourly", 3600000000000, 3⟩ [⟨str "daily", 86400000000000, 3⟩]
    (constClock ⟨2020, 2, 1, 0, 0, 0, 0, 0⟩)
    ⟨⟨str "tank/a@zfs-auto-snap_hourly_2020-13-01T00:00:00Z", str "snapshot"⟩,
      by decide, by decide, str "2020-13-01T00:00:00Z", by decide⟩

/-- C7: the destroy phase destroys every requested snapshot it can
locate among the dataset's snapshot-type children; it errors exactly
when some requested identity could not be located among them (the
shortfall is surfaced, not ignored); and a requested identity that is
absent from the children (e.g. already destroyed) is simply not
destroyed again. -/
theorem C7_partial_destroy (children : List DNode) (snaps : List snapMetadata) :
    ((removeSnapshots children snaps).2 = true
      ↔ ∃ m ∈ snaps, snapPath m ∉ snapChildPaths children)
    ∧ (∀ m ∈ snaps, snapPath m ∈ snapChildPaths children →
        snapPath m ∈ (removeSnapshots children snaps).1)
    ∧ (∀ m ∈ snaps, snapPath m ∉ snapChildPaths children →
        snapPath m ∉ (removeSnapshots children snaps).1) := by
  refine ⟨removeSnapshots_error_iff children snaps, ?_, ?_⟩
  · exact fun m hm hin => removeSnapshots_complete children snaps m hm hin
  · intro m _ hnot hp
    exact hnot (mem_snapChildPaths.2 (removeSnapshots_frame children snaps _ hp).2)

/-- C7 witness: one present and one absent requested snapshot — the
present one is destroyed, the absent one is not, and the shortfall is
reported. -/
theorem C7_partial_destroy_witness :
    ((removeSnapshots
        [⟨str "tank/a@zfs-auto-snap_hourly_2020-01-01T01:00:00Z", str "snapshot"⟩]
        [⟨str "tank/a", str "zfs-auto-snap", str "hourly", ⟨2020, 1, 1, 1, 0, 0, 0, 0⟩⟩,
         ⟨str "tank/a", str "zfs-auto-snap", str "hourly", ⟨2020, 1, 1, 5, 0, 0, 0, 0⟩⟩]).2 = true
      ↔ ∃ m ∈ [(⟨str "tank/a", str "zfs-auto-snap", str "hourly",
            ⟨2020, 1, 1, 1, 0, 0, 0, 0⟩⟩ : snapMetadata),
          ⟨str "tank/a", str "zfs-auto-snap", str "hourly", ⟨2020, 1, 1, 5, 0, 0, 0, 0⟩⟩],
          snapPath m ∉ snapChildPaths
            [⟨str "tank/a@zfs-auto-snap_hourly_2020-01-01T01:00:00Z", str "snapshot"⟩])
    ∧ (∀ m ∈ [(⟨str "tank/a", str "zfs-auto-snap", str "hourly",
          ⟨2020, 1, 1, 1, 0, 0, 0, 0⟩⟩ : snapMetadata),
        ⟨str "tank/a", str "zfs-auto-snap", str "hourly", ⟨2020, 1, 1, 5, 0, 0, 0, 0⟩⟩],
        snapPath m ∈ snapChildPaths
            [⟨str "tank/a@zfs-auto-snap_hourly_2020-01-01T01:00:00Z", str "snapshot"⟩] →
        snapPath m ∈ (removeSnapshots
          [⟨str "tank/a@zfs-auto-snap_hourly_2020-01-01T01:00:00Z", str "snapshot"⟩]
          [⟨str "tank/a", str "zfs-auto-snap", str "hourly", ⟨2020, 1, 1, 1, 0, 0, 0, 0⟩⟩,
           ⟨str "tank/a", str "zfs-auto-snap", str "hourly", ⟨2020, 1, 1, 5, 0, 0, 0, 0⟩⟩]).1)
    ∧ (∀ m ∈ [(⟨str "tank/a", str "zfs-auto-snap", str "hourly",
          ⟨2020, 1, 1, 1, 0, 0, 0, 0⟩⟩ : snapMetadata),
        ⟨str "tank/a", str "zfs-auto-snap", str "hourly", ⟨2020, 1, 1, 5, 0, 0, 0, 0⟩⟩],
        snapPath m ∉ snapChildPaths
            [⟨str "tank/a@zfs-auto-snap_hourly_2020-01-01T01:00:00Z", str "snapshot"⟩] →
        snapPath m ∉ (removeSnapshots
          [⟨str "tank/a@zfs-auto-snap_hourly_2020-01-01T01:00:00Z", str "snapshot"⟩]
          [⟨str "tank/a", str "zfs-auto-snap", str "hourly", ⟨2020, 1, 1, 1, 0, 0, 0, 0⟩⟩,
           ⟨str "tank/a", str "zfs-auto-snap", str "hourly", ⟨2020, 1, 1, 5, 0, 0, 0, 0⟩⟩]).1) :=
  C7_partial_destroy
    [⟨str "tank/a@zfs-auto-snap_hourly_2020-01-01T01:00:00Z", str "snapshot"⟩]
    [⟨str "tank/a", str "zfs-auto-snap", str "hourly", ⟨2020, 1, 1, 1, 0, 0, 0, 0⟩⟩,
     ⟨str "tank/a", str "zfs-auto-snap", str "hourly", ⟨2020, 1, 1, 5, 0, 0, 0, 0⟩⟩]

/-- C8: the exclusion decision: absent property → the default;
a value lowering to `"true"`/`"false"` → include/exclude, overriding
the default, case-insensitively; any other value → the default plus a
non-fatal warning. -/
theorem C8_exclusion_policy (props : List (Str × Str)) (dflt : Bool) :
    (lookupProp autoSnapshotProperty props = none →
        datasetExcluded props dflt = (dflt, false))
    ∧ (∀ v, lookupProp autoSnapshotProperty props = some v →
        (goToLower v = str "true" → datasetExcluded props dflt = (false, false))
        ∧ (goToLower v = str "false" → datasetExcluded props dflt = (true, false))
        ∧ (goToLower v ≠ str "true" → goToLower v ≠ str "false" →
            datasetExcluded props dflt = (dflt, true))) := by
  constructor
  · intro hnone
    unfold datasetExcluded
    rw [hnone]
  · intro v hv
    refine ⟨?_, ?_, ?_⟩
    · intro ht
      unfold datasetExcluded
      rw [hv]
      simp [ht]
    · intro hf
      unfold datasetExcluded
      rw [hv]
      simp [hf]
      decide
    · intro hnt hnf
      unfold datasetExcluded
      rw [hv]
      simp [hnt, hnf]

/-- C8 witness: a dataset with `com.sun:auto-snapshot = "TRUE"` and
`defaultExclude = true` is included without warning. -/
theorem C8_exclusion_policy_witness :
    datasetExcluded [(str "com.sun:auto-snapshot", str "TRUE")] true
      = (false, false) :=
  ((C8_exclusion_policy [(str "com.sun:auto-snapshot", str "TRUE")] true).2
    (str "TRUE") (by decide)).1 (by decide)

/-- C9: `removeSnapshots` only ever destroys snapshot-type children of
the given dataset whose full path is among the requested encoded paths:
every destroyed path belongs to a snapshot-type child and to the
request; in particular no non-snapshot child, no unrequested snapshot,
and (since the dataset's own path is not a child path) never the
dataset itself. -/
theorem C9_destroy_frame (children : List DNode) (snaps : List snapMetadata)
    (dsPath : Str) :
    (∀ p ∈ (removeSnapshots children snaps).1,
      (∃ m ∈ snaps, snapPath m = p)
        ∧ ∃ dd ∈ children, dd.typ = snapTypeStr ∧ dd.path = p)
    ∧ (dsPath ∉ children.map (fun dd => dd.path) →
        dsPath ∉ (removeSnapshots children snaps).1) := by
  refine ⟨fun p hp => removeSnapshots_frame children snaps p hp, ?_⟩
  intro hnot hp
  rcases (removeSnapshots_frame children snaps dsPath hp).2 with ⟨dd, hdd, _, hpath⟩
  exact hnot (List.mem_map.2 ⟨dd, hdd, hpath⟩)

/-- C9 witness: the frame property at a dataset with a filesystem
child, a requested snapshot child and an unrequested snapshot child. -/
theorem C9_destroy_frame_witness :
    (∀ p ∈ (removeSnapshots
        [⟨str "tank/a/fs", str "filesystem"⟩,
         ⟨str "tank/a@zfs-auto-snap_hourly_2020-01-01T01:00:00Z", str "snapshot"⟩,
         ⟨str "tank/a@zfs-auto-snap_hourly_2020-01-01T00:00:00Z", str "snapshot"⟩]
        [⟨str "tank/a", str "zfs-auto-snap", str "hourly", ⟨2020, 1, 1, 0, 0, 0, 0, 0⟩⟩]).1,
      (∃ m ∈ [(⟨str "tank/a", str "zfs-auto-snap", str "hourly",
          ⟨2020, 1, 1, 0, 0, 0, 0, 0⟩⟩ : snapMetadata)], snapPath m = p)
        ∧ ∃ dd ∈ [(⟨str "tank/a/fs", str "filesystem"⟩ : DNode),
            ⟨str "tank/a@zfs-auto-snap_hourly_2020-01-01T01:00:00Z", str "snapshot"⟩,
            ⟨str "tank/a@zfs-auto-snap_hourly_2020-01-01T00:00:00Z", str "snapshot"⟩],
            dd.typ = snapTypeStr ∧ dd.path = p)
    ∧ (str "tank/a" ∉ List.map (fun dd => dd.path)
          [(⟨str "tank/a/fs", str "filesystem"⟩ : DNode),
           ⟨str "tank/a@zfs-auto-snap_hourly_2020-01-01T01:00:00Z", str "snapshot"⟩,
           ⟨str "tank/a@zfs-auto-snap_hourly_2020-01-01T00:00:00Z", str "snapshot"⟩] →
        str "tank/a" ∉ (removeSnapshots
          [⟨str "tank/a/fs", str "filesystem"⟩,
           ⟨str "tank/a@zfs-auto-snap_hourly_2020-01-01T01:00:00Z", str "snapshot"⟩,
           ⟨str "tank/a@zfs-auto-snap_hourly_2020-01-01T00:00:00Z", str "snapshot"⟩]
          [⟨str "tank/a", str "zfs-auto-snap", str "hourly",
            ⟨2020, 1, 1, 0, 0, 0, 0, 0⟩⟩]).1) :=
  C9_destroy_frame
    [⟨str "tank/a/fs", str "filesystem"⟩,
     ⟨str "tank/a@zfs-auto-snap_hourly_2020-01-01T01:00:00Z", str "snapshot"⟩,
     ⟨str "tank/a@zfs-auto-snap_hourly_2020-01-01T00:00:00Z", str "snapshot"⟩]
    [⟨str "tank/a", str "zfs-auto-snap", str "hourly", ⟨2020, 1, 1, 0, 0, 0, 0, 0⟩⟩]
    (str "tank/a")

/-- C10 counterexample: a name that matches the grammar with the
expected prefix and a nonzero fractional second, but no zone
designator (the pattern's zone group is optional): the claim says
decode succeeds, but Go's `time.Parse` requires the zone, so decode is
a hard error. -/
theorem C10_fraction_counterexample :
    findSubmatch (str "ds@zfs-auto-snap_daily_2010-01-02T03:04:05.5")
      = some (str "ds", str "zfs-auto-snap", str "daily", str "2010-01-02T03:04:05.5")
    ∧ parseSnapName (str "zfs-auto-snap") (str "ds@zfs-auto-snap_daily_2010-01-02T03:04:05.5")
      = Except.error (str "2010-01-02T03:04:05.5") := by
  refine ⟨by decide, by decide⟩

/-- C10 (amended): encoding always renders whole seconds (the
fractional field is never printed); decoding a grammar-matching name
with the expected prefix whose timestamp has in-range fields, a zone
designator and a fractional part of 1 to 9 digits succeeds, preserving
the (nonzero) fraction in the returned identity; and re-encoding the
decoded identity yields the same name with the fractional digits
removed. -/
theorem C10_fraction_roundtrip (ds pre lab : Str) (t : GoTime) (fds : List Char)
    (n : Nat)
    (hpre : pre ≠ []) (hpreA : '@' ∉ pre)
    (hlabne : lab ≠ []) (hlabU : '_' ∉ lab) (hlabA : '@' ∉ lab)
    (hv : ValidTS t) (_hns : t.nsec = 0) (hne : fds ≠ [])
    (hdig : ∀ c ∈ fds, isDig c = true) (hlen : fds.length ≤ 9)
    (hnz : dvFrom 0 fds ≠ 0) :
    goFormatRFC3339 { t with nsec := n } = goFormatRFC3339 t
    ∧ parseSnapName pre (ds ++ '@' :: (pre ++ '_' :: (lab ++ '_' ::
        (dtPart t ++ '.' :: (fds ++ zonePart t)))))
      = Except.ok (some ⟨ds, pre, lab,
          { t with nsec := dvFrom 0 fds * 10 ^ (9 - fds.length) }⟩)
    ∧ (dvFrom 0 fds * 10 ^ (9 - fds.length) ≠ 0)
    ∧ snapPath ⟨ds, pre, lab, { t with nsec := dvFrom 0 fds * 10 ^ (9 - fds.length) }⟩
      = ds ++ '@' :: (pre ++ '_' :: (lab ++ '_' :: goFormatRFC3339 t)) := by
  refine ⟨rfl, ?_, ?_, rfl⟩
  · exact parseSnapName_frac ds pre lab t fds hpre hpreA hlabne hlabU hlabA hv
      hne hdig hlen
  · have hp : (10 : Nat) ^ (9 - fds.length) ≠ 0 := by positivity
    exact Nat.mul_ne_zero hnz hp

/-- C10 witness: the fractional round trip at
`ds@zfs-auto-snap_daily_2010-01-02T03:04:05.5Z`. -/
theorem C10_fraction_roundtrip_witness :
    goFormatRFC3339 ⟨2010, 1, 2, 3, 4, 5, 7, 0⟩
        = goFormatRFC3339 ⟨2010, 1, 2, 3, 4, 5, 0, 0⟩
    ∧ parseSnapName (str "zfs-auto-snap")
        (str "ds" ++ '@' :: (str "zfs-auto-snap" ++ '_' :: (str "daily" ++ '_' ::
          (dtPart ⟨2010, 1, 2, 3, 4, 5, 0, 0⟩ ++ '.' ::
            (['5'] ++ zonePart ⟨2010, 1, 2, 3, 4, 5, 0, 0⟩)))))
      = Except.ok (some ⟨str "ds", str "zfs-auto-snap", str "daily",
          ⟨2010, 1, 2, 3, 4, 5, 500000000, 0⟩⟩)
    ∧ ((500000000 : Nat) ≠ 0)
    ∧ snapPath ⟨str "ds", str "zfs-auto-snap", str "daily",
          ⟨2010, 1, 2, 3, 4, 5, 500000000, 0⟩⟩
      = str "ds" ++ '@' :: (str "zfs-auto-snap" ++ '_' :: (str "daily" ++ '_' ::
          goFormatRFC3339 ⟨2010, 1, 2, 3, 4, 5, 0, 0⟩)) :=
  C10_fraction_roundtrip (str "ds") (str "zfs-auto-snap") (str "daily")
    ⟨2010, 1, 2, 3, 4, 5, 0, 0⟩ ['5'] 7
    (by decide) (by decide) (by decide) (by decide) (by decide) (by decide)
    (by decide) (by decide) (by decide) (by decide) (by decide)
